import Mathlib

/-!
ChipEmul8r: the CHIP-8 interpreter core of `src/chip8.cpp`.

A shallow embedding of the class `Chip8`: the member variables become the
fields of a structure, every member function becomes a function on that
structure, and a thrown exception becomes `Except.error` carrying the kind
of the exception together with the object state at the `throw`.

Fixed-width unsigned integers are natural numbers reduced `% 2 ^ w` at every
store that can leave the width.  The `std::array`s are total functions of
the index; an index outside the array is undefined behaviour in the source
and the statements below say which indices they range over.  Console output
and the call into the window (`draw_window`) do not touch the interpreter
state and are left out.
-/

namespace Chip8

/-! ## Constants of `chip8.h` -/

/-- Modelled from the spec: `MEMORY_SIZE` is declared in `chip8.h`, which is not
part of the sources; the spec gives a memory of 4096 bytes. -/
def MEMORY_SIZE : Nat := 4096

/-- Modelled from the spec: `PROGRAM_START_ADDRESS` is declared in `chip8.h`;
the spec loads programs at `0x200`, which is also the initial PC. -/
def PROGRAM_START_ADDRESS : Nat := 0x200

/-- Modelled from the spec: the size of `_stack` is declared in `chip8.h`; the
spec gives a stack of 16 return addresses. -/
def STACK_SIZE : Nat := 16

/-- Modelled from the spec: the size of `_keypad` is declared in `chip8.h`; the
spec gives 16 keys. -/
def KEYPAD_SIZE : Nat := 16

/-- Modelled from the spec: `MAX_VAL` is declared in `chip8.h`; the spec draws
the random byte from `[0,255]`. -/
def MAX_VAL : Nat := 255

/-- Modelled from the spec: `FONT_SET_SIZE` is declared in `chip8.h`; 16 glyphs
of 5 bytes. -/
def FONT_SET_SIZE : Nat := 80

/-- Modelled from the spec: `Key_state::pressed` is declared in `chip8.h`; a
pressed key is stored as 1. -/
def KEY_PRESSED : Nat := 1

/-- Modelled from the spec: `Key_state::released` is declared in `chip8.h`; a
released key is stored as 0. -/
def KEY_RELEASED : Nat := 0

/-! ## State -/

/-- The decoded operand fields `_opcode_args`. -/
structure OpcodeArgs where
  nnn : Nat
  nn : Nat
  n : Nat
  x : Nat
  y : Nat

/-- The register file `_cpu`. -/
structure Cpu where
  pc : Nat
  i : Nat
  sp : Nat
  v : Nat → Nat

/-- The two timers `_timer`. -/
structure Timer where
  _delay : Nat
  _sound : Nat

end Chip8

/-- The member variables of class `Chip8` (the window `_graphics` apart). -/
structure Chip8 where
  _opcode : Nat
  _opcode_args : Chip8.OpcodeArgs
  _memory : Nat → Nat
  _keypad : Nat → Nat
  _stack : Nat → Nat
  _cpu : Chip8.Cpu
  _display : Nat → Nat → Nat
  _timer : Chip8.Timer

namespace Chip8

/-- The exceptions thrown by the interpreter. -/
inductive Fault where
  | illegal_instruction
  | stack_underflow
  | stack_overflow
  | cannot_open_rom
  | rom_too_big
  deriving DecidableEq, Repr

/-- Result of a member function that may throw: the state after a normal
return, or the exception with the state at the `throw`. -/
abbrev Outcome := Except (Fault × Chip8) Chip8

/-- Array store `a[i] = x`. -/
def upd (a : Nat → Nat) (i x : Nat) : Nat → Nat :=
  fun j => if j = i then x else a j

/-- Store into the two-dimensional array: `d[r][c] = x`. -/
def upd2 (d : Nat → Nat → Nat) (r c x : Nat) : Nat → Nat → Nat :=
  fun r' c' => if r' = r ∧ c' = c then x else d r' c'

/-- Store `_cpu.v[idx] = x`. -/
def setV (s : Chip8) (idx x : Nat) : Chip8 :=
  { s with _cpu := { s._cpu with v := upd s._cpu.v idx x } }

/-- Store `_cpu.pc = x`. -/
def setPC (s : Chip8) (x : Nat) : Chip8 :=
  { s with _cpu := { s._cpu with pc := x } }

/-- Store `_cpu.i = x`. -/
def setI (s : Chip8) (x : Nat) : Chip8 :=
  { s with _cpu := { s._cpu with i := x } }

/-- Store `_cpu.sp = x`. -/
def setSP (s : Chip8) (x : Nat) : Chip8 :=
  { s with _cpu := { s._cpu with sp := x } }

/-- The statement `_cpu.pc += 2;` on the 16-bit program counter. -/
def pc_add2 (s : Chip8) : Chip8 :=
  setPC s ((s._cpu.pc + 2) % 65536)

/-! ## Opcode handlers -/

/-- Handler `inst_00E0`: clear the screen. -/
def inst_00E0 (s : Chip8) : Outcome :=
  let s1 := { s with _display := fun _ _ => 0 }
  .ok (pc_add2 s1)

/-- Handler `inst_00EE`: return from a subroutine. -/
def inst_00EE (s : Chip8) : Outcome :=
  if s._cpu.sp > 0 then
    let s1 := setSP s (s._cpu.sp - 1)
    let s2 := setPC s1 (s1._stack s1._cpu.sp)
    .ok (pc_add2 s2)
  else
    .error (Fault.stack_underflow, s)

/-- Handler `inst_1NNN`: jump to `nnn`. -/
def inst_1NNN (s : Chip8) : Outcome :=
  .ok (setPC s s._opcode_args.nnn)

/-- Handler `inst_2NNN`: call the subroutine at `nnn`. -/
def inst_2NNN (s : Chip8) : Outcome :=
  if s._cpu.sp < STACK_SIZE - 1 then
    let s1 := { s with _stack := upd s._stack s._cpu.sp s._cpu.pc }
    let s2 := setSP s1 (s1._cpu.sp + 1)
    .ok (setPC s2 s2._opcode_args.nnn)
  else
    .error (Fault.stack_overflow, s)

/-- Handler `inst_3XNN`: skip if `Vx == nn`. -/
def inst_3XNN (s : Chip8) : Outcome :=
  let s1 := if s._cpu.v s._opcode_args.x = s._opcode_args.nn then pc_add2 s else s
  .ok (pc_add2 s1)

/-- Handler `inst_4XNN`: skip if `Vx != nn`. -/
def inst_4XNN (s : Chip8) : Outcome :=
  let s1 := if s._cpu.v s._opcode_args.x ≠ s._opcode_args.nn then pc_add2 s else s
  .ok (pc_add2 s1)

/-- Handler `inst_5XY0`: skip if `Vx == Vy`. -/
def inst_5XY0 (s : Chip8) : Outcome :=
  let s1 := if s._cpu.v s._opcode_args.x = s._cpu.v s._opcode_args.y then pc_add2 s else s
  .ok (pc_add2 s1)

/-- Handler `inst_6XNN`: `Vx = nn`. -/
def inst_6XNN (s : Chip8) : Outcome :=
  let s1 := setV s s._opcode_args.x s._opcode_args.nn
  .ok (pc_add2 s1)

/-- Handler `inst_7XNN`: `Vx += nn`, no flag. -/
def inst_7XNN (s : Chip8) : Outcome :=
  let s1 := setV s s._opcode_args.x ((s._cpu.v s._opcode_args.x + s._opcode_args.nn) % 256)
  .ok (pc_add2 s1)

/-- Handler `inst_8XY0`: `Vx = Vy`. -/
def inst_8XY0 (s : Chip8) : Outcome :=
  let s1 := setV s s._opcode_args.x (s._cpu.v s._opcode_args.y)
  .ok (pc_add2 s1)

/-- Handler `inst_8XY1`: `Vx |= Vy`. -/
def inst_8XY1 (s : Chip8) : Outcome :=
  let s1 := setV s s._opcode_args.x (s._cpu.v s._opcode_args.x ||| s._cpu.v s._opcode_args.y)
  .ok (pc_add2 s1)

/-- Handler `inst_8XY2`: `Vx &= Vy`. -/
def inst_8XY2 (s : Chip8) : Outcome :=
  let s1 := setV s s._opcode_args.x (s._cpu.v s._opcode_args.x &&& s._cpu.v s._opcode_args.y)
  .ok (pc_add2 s1)

/-- Handler `inst_8XY3`: `Vx ^= Vy`. -/
def inst_8XY3 (s : Chip8) : Outcome :=
  let s1 := setV s s._opcode_args.x (s._cpu.v s._opcode_args.x ^^^ s._cpu.v s._opcode_args.y)
  .ok (pc_add2 s1)

/-- Handler `inst_8XY4`: the flag is stored into `v[0xF]` first, then `v[x] += v[y]`
is evaluated on the registers as they are after that store. -/
def inst_8XY4 (s : Chip8) : Outcome :=
  let s1 := setV s 0xF
    (if s._cpu.v s._opcode_args.x + s._cpu.v s._opcode_args.y > 0x00FF then 1 else 0)
  let s2 := setV s1 s1._opcode_args.x
    ((s1._cpu.v s1._opcode_args.x + s1._cpu.v s1._opcode_args.y) % 256)
  .ok (pc_add2 s2)

/-- Handler `inst_8XY5`: the flag is stored into `v[0xF]` first, then `v[x] -= v[y]`
is evaluated on the registers as they are after that store. -/
def inst_8XY5 (s : Chip8) : Outcome :=
  let s1 := setV s 0xF
    (if s._cpu.v s._opcode_args.x < s._cpu.v s._opcode_args.y then 0 else 1)
  let s2 := setV s1 s1._opcode_args.x
    ((s1._cpu.v s1._opcode_args.x + 256 - s1._cpu.v s1._opcode_args.y % 256) % 256)
  .ok (pc_add2 s2)

/-- Handler `inst_8XY6`: `VF = Vx & 1`, then `Vx >>= 1`. -/
def inst_8XY6 (s : Chip8) : Outcome :=
  let s1 := setV s 0xF (s._cpu.v s._opcode_args.x &&& 0x1)
  let s2 := setV s1 s1._opcode_args.x (s1._cpu.v s1._opcode_args.x >>> 1)
  .ok (pc_add2 s2)

/-- Handler `inst_8XY7`: `VF = Vx > Vy ? 0 : 1`, then `Vx = Vy - Vx`. -/
def inst_8XY7 (s : Chip8) : Outcome :=
  let s1 := setV s 0xF
    (if s._cpu.v s._opcode_args.x > s._cpu.v s._opcode_args.y then 0 else 1)
  let s2 := setV s1 s1._opcode_args.x
    ((s1._cpu.v s1._opcode_args.y + 256 - s1._cpu.v s1._opcode_args.x % 256) % 256)
  .ok (pc_add2 s2)

/-- Handler `inst_8XYE`: `VF = Vx >> 7`, then `Vx <<= 1`. -/
def inst_8XYE (s : Chip8) : Outcome :=
  let s1 := setV s 0xF (s._cpu.v s._opcode_args.x >>> 7)
  let s2 := setV s1 s1._opcode_args.x ((s1._cpu.v s1._opcode_args.x <<< 1) % 256)
  .ok (pc_add2 s2)

/-- Handler `inst_9XY0`: skip if `Vx != Vy`. -/
def inst_9XY0 (s : Chip8) : Outcome :=
  let s1 := if s._cpu.v s._opcode_args.x ≠ s._cpu.v s._opcode_args.y then pc_add2 s else s
  .ok (pc_add2 s1)

/-- Handler `inst_ANNN`: `I = nnn`. -/
def inst_ANNN (s : Chip8) : Outcome :=
  let s1 := setI s s._opcode_args.nnn
  .ok (pc_add2 s1)

/-- Handler `inst_BNNN`: `PC = V0 + nnn`. -/
def inst_BNNN (s : Chip8) : Outcome :=
  .ok (setPC s ((s._cpu.v 0 + s._opcode_args.nnn) % 65536))

/-- Handler `inst_CXNN`: `Vx = (rand() % (MAX_VAL + 1)) & nn`; `rnd` is the value that
`std::rand()` returns at this call. -/
def inst_CXNN (rnd : Nat) (s : Chip8) : Outcome :=
  let s1 := setV s s._opcode_args.x ((rnd % (MAX_VAL + 1)) &&& s._opcode_args.nn)
  .ok (pc_add2 s1)

/-- The test `(px_to_draw & (0x80 >> bit_pos)) != 0` of `inst_DXYN`. -/
def sprite_bit (px_to_draw bit_pos : Nat) : Bool :=
  px_to_draw &&& (0x80 >>> bit_pos) != 0

/-- Body of the inner loop of `inst_DXYN` for one `bit_pos`. -/
def draw_px (coord_x coord_y px_to_draw row bit_pos : Nat) (s : Chip8) : Chip8 :=
  if sprite_bit px_to_draw bit_pos then
    let r := (coord_y + row) % 32
    let c := (coord_x + bit_pos) % 64
    let s1 := if s._display r c ≠ 0 then setV s 0xF 1 else s
    { s1 with _display := upd2 s1._display r c (s1._display r c ^^^ 1) }
  else s

/-- Body of the outer loop of `inst_DXYN` for one `row`. -/
def draw_row (coord_x coord_y row : Nat) (s : Chip8) : Chip8 :=
  let px_to_draw := s._memory (s._cpu.i + row)
  (List.range 8).foldl (fun st bit_pos => draw_px coord_x coord_y px_to_draw row bit_pos st) s

/-- Handler `inst_DXYN`: draw the sprite at `(Vx, Vy)`; the outer loop runs for
`row = 0, ..., sprite_height - 1` with `sprite_height = n`. -/
def inst_DXYN (s : Chip8) : Outcome :=
  let coord_x := s._cpu.v s._opcode_args.x
  let coord_y := s._cpu.v s._opcode_args.y
  let sprite_height := s._opcode_args.n
  let s1 := setV s 0xF 0
  let s2 := (List.range sprite_height).foldl (fun st row => draw_row coord_x coord_y row st) s1
  .ok (pc_add2 s2)

/-- Handler `inst_EX9E`: skip if key `Vx` is pressed. -/
def inst_EX9E (s : Chip8) : Outcome :=
  let s1 := if s._keypad (s._cpu.v s._opcode_args.x) = KEY_PRESSED then pc_add2 s else s
  .ok (pc_add2 s1)

/-- Handler `inst_EXA1`: skip if key `Vx` is released. -/
def inst_EXA1 (s : Chip8) : Outcome :=
  let s1 := if s._keypad (s._cpu.v s._opcode_args.x) = KEY_RELEASED then pc_add2 s else s
  .ok (pc_add2 s1)

/-- Handler `inst_FX07`: `Vx = delay`. -/
def inst_FX07 (s : Chip8) : Outcome :=
  let s1 := setV s s._opcode_args.x s._timer._delay
  .ok (pc_add2 s1)

/-- Handler `inst_FX0A`: scan the keypad from index 0; at the first non-zero entry
store its index in `Vx`, advance PC and return; otherwise change nothing. -/
def inst_FX0A (s : Chip8) : Outcome :=
  match (List.range KEYPAD_SIZE).find? (fun i => s._keypad i != 0) with
  | some i =>
    let s1 := setV s s._opcode_args.x i
    .ok (pc_add2 s1)
  | none => .ok s

/-- Handler `inst_FX15`: `delay = Vx`. -/
def inst_FX15 (s : Chip8) : Outcome :=
  let s1 := { s with _timer := { s._timer with _delay := s._cpu.v s._opcode_args.x } }
  .ok (pc_add2 s1)

/-- Handler `inst_FX18`: `sound = Vx`. -/
def inst_FX18 (s : Chip8) : Outcome :=
  let s1 := { s with _timer := { s._timer with _sound := s._cpu.v s._opcode_args.x } }
  .ok (pc_add2 s1)

/-- Handler `inst_FX1E`: `VF = (I + Vx) > 0xFF ? 1 : 0`, then `I += Vx` on the
registers as they are after that store. -/
def inst_FX1E (s : Chip8) : Outcome :=
  let s1 := setV s 0xF (if s._cpu.i + s._cpu.v s._opcode_args.x > 0x00FF then 1 else 0)
  let s2 := setI s1 ((s1._cpu.i + s1._cpu.v s1._opcode_args.x) % 65536)
  .ok (pc_add2 s2)

/-- Handler `inst_FX29`: `I = Vx * 5`. -/
def inst_FX29 (s : Chip8) : Outcome :=
  let s1 := setI s ((s._cpu.v s._opcode_args.x * 5) % 65536)
  .ok (pc_add2 s1)

/-- Handler `inst_FX33`: three stores, each reading `Vx` and `I` anew. -/
def inst_FX33 (s : Chip8) : Outcome :=
  let s1 := { s with _memory := upd s._memory s._cpu.i ((s._cpu.v s._opcode_args.x / 100) % 256) }
  let s2 := { s1 with
    _memory := upd s1._memory (s1._cpu.i + 1) ((s1._cpu.v s1._opcode_args.x / 10) % 10) }
  let s3 := { s2 with
    _memory := upd s2._memory (s2._cpu.i + 2) (s2._cpu.v s2._opcode_args.x % 10) }
  .ok (pc_add2 s3)

/-- Handler `inst_FX55`: `for (i = 0; i <= x; i++) _memory[I + i] = v[i]`. -/
def inst_FX55 (s : Chip8) : Outcome :=
  let s1 := (List.range (s._opcode_args.x + 1)).foldl
    (fun st i => { st with _memory := upd st._memory (st._cpu.i + i) (st._cpu.v i) }) s
  .ok (pc_add2 s1)

/-- Handler `inst_FX65`: `for (i = 0; i <= x; i++) v[i] = _memory[I + i]`. -/
def inst_FX65 (s : Chip8) : Outcome :=
  let s1 := (List.range (s._opcode_args.x + 1)).foldl
    (fun st i => setV st i (st._memory (st._cpu.i + i))) s
  .ok (pc_add2 s1)

/-! ## Decode and dispatch -/

/-- Member function `init_opcode_args`: the operand fields of `_opcode`. -/
def init_opcode_args (s : Chip8) : Chip8 :=
  { s with _opcode_args :=
      { nnn := s._opcode &&& 0x0FFF
        nn := s._opcode &&& 0x00FF
        n := s._opcode &&& 0x000F
        x := (s._opcode &&& 0x0F00) >>> 8
        y := (s._opcode &&& 0x00F0) >>> 4 } }

/-- The 35 member functions a table entry can point to. -/
inductive Handler where
  | inst_00E0 | inst_00EE | inst_1NNN | inst_2NNN | inst_3XNN | inst_4XNN | inst_5XY0
  | inst_6XNN | inst_7XNN | inst_8XY0 | inst_8XY1 | inst_8XY2 | inst_8XY3 | inst_8XY4
  | inst_8XY5 | inst_8XY6 | inst_8XY7 | inst_8XYE | inst_9XY0 | inst_ANNN | inst_BNNN
  | inst_CXNN | inst_DXYN | inst_EX9E | inst_EXA1 | inst_FX07 | inst_FX0A | inst_FX15
  | inst_FX18 | inst_FX1E | inst_FX29 | inst_FX33 | inst_FX55 | inst_FX65
  deriving DecidableEq, Repr

/-- The call `(this->*handler)()`; `rnd` is what `std::rand()` returns if the
handler asks for it. -/
def Handler.call (h : Handler) (rnd : Nat) (s : Chip8) : Outcome :=
  match h with
  | .inst_00E0 => Chip8.inst_00E0 s
  | .inst_00EE => Chip8.inst_00EE s
  | .inst_1NNN => Chip8.inst_1NNN s
  | .inst_2NNN => Chip8.inst_2NNN s
  | .inst_3XNN => Chip8.inst_3XNN s
  | .inst_4XNN => Chip8.inst_4XNN s
  | .inst_5XY0 => Chip8.inst_5XY0 s
  | .inst_6XNN => Chip8.inst_6XNN s
  | .inst_7XNN => Chip8.inst_7XNN s
  | .inst_8XY0 => Chip8.inst_8XY0 s
  | .inst_8XY1 => Chip8.inst_8XY1 s
  | .inst_8XY2 => Chip8.inst_8XY2 s
  | .inst_8XY3 => Chip8.inst_8XY3 s
  | .inst_8XY4 => Chip8.inst_8XY4 s
  | .inst_8XY5 => Chip8.inst_8XY5 s
  | .inst_8XY6 => Chip8.inst_8XY6 s
  | .inst_8XY7 => Chip8.inst_8XY7 s
  | .inst_8XYE => Chip8.inst_8XYE s
  | .inst_9XY0 => Chip8.inst_9XY0 s
  | .inst_ANNN => Chip8.inst_ANNN s
  | .inst_BNNN => Chip8.inst_BNNN s
  | .inst_CXNN => Chip8.inst_CXNN rnd s
  | .inst_DXYN => Chip8.inst_DXYN s
  | .inst_EX9E => Chip8.inst_EX9E s
  | .inst_EXA1 => Chip8.inst_EXA1 s
  | .inst_FX07 => Chip8.inst_FX07 s
  | .inst_FX0A => Chip8.inst_FX0A s
  | .inst_FX15 => Chip8.inst_FX15 s
  | .inst_FX18 => Chip8.inst_FX18 s
  | .inst_FX1E => Chip8.inst_FX1E s
  | .inst_FX29 => Chip8.inst_FX29 s
  | .inst_FX33 => Chip8.inst_FX33 s
  | .inst_FX55 => Chip8.inst_FX55 s
  | .inst_FX65 => Chip8.inst_FX65 s

/-- Member function `init_opcode_table`: the entries in the order of the assignments, which is
the ascending order of the keys.

Modelled from the spec: the type of `_opcode_table` is declared in `chip8.h`;
it is taken to be an ordered map, whose iteration (the scan of `find_if`)
visits the keys in ascending order. -/
def init_opcode_table : List (Nat × Handler) :=
  [ (0x00E0, .inst_00E0), (0x00EE, .inst_00EE), (0x1FFF, .inst_1NNN), (0x2FFF, .inst_2NNN),
    (0x3FFF, .inst_3XNN), (0x4FFF, .inst_4XNN), (0x5FF0, .inst_5XY0), (0x6FFF, .inst_6XNN),
    (0x7FFF, .inst_7XNN), (0x8FF0, .inst_8XY0), (0x8FF1, .inst_8XY1), (0x8FF2, .inst_8XY2),
    (0x8FF3, .inst_8XY3), (0x8FF4, .inst_8XY4), (0x8FF5, .inst_8XY5), (0x8FF6, .inst_8XY6),
    (0x8FF7, .inst_8XY7), (0x8FFE, .inst_8XYE), (0x9FF0, .inst_9XY0), (0xAFFF, .inst_ANNN),
    (0xBFFF, .inst_BNNN), (0xCFFF, .inst_CXNN), (0xDFFF, .inst_DXYN), (0xEF9E, .inst_EX9E),
    (0xEFA1, .inst_EXA1), (0xFF07, .inst_FX07), (0xFF0A, .inst_FX0A), (0xFF15, .inst_FX15),
    (0xFF18, .inst_FX18), (0xFF1E, .inst_FX1E), (0xFF29, .inst_FX29), (0xFF33, .inst_FX33),
    (0xFF55, .inst_FX55), (0xFF65, .inst_FX65) ]

/-- The predicate of the `find_if` in `handle_opcode`. -/
def entry_matches (opcode : Nat) (entry : Nat × Handler) : Bool :=
  ((entry.1 &&& opcode) == opcode) && ((entry.1 ||| opcode) == entry.1)

/-- The `find_if` of `handle_opcode` over the table. -/
def find_entry (opcode : Nat) : Option (Nat × Handler) :=
  init_opcode_table.find? (entry_matches opcode)

/-- The fetch `_memory[pc] << 8 | _memory[pc + 1]`, stored in the 16-bit
`_opcode`. -/
def fetch (s : Chip8) : Nat :=
  ((s._memory s._cpu.pc <<< 8) ||| s._memory (s._cpu.pc + 1)) % 65536

/-- Member function `handle_opcode`: fetch, look the opcode up, throw when no entry matches,
otherwise decode the operands and call the handler. -/
def handle_opcode (rnd : Nat) (s : Chip8) : Outcome :=
  let s1 := { s with _opcode := fetch s }
  match find_entry s1._opcode with
  | none => .error (Fault.illegal_instruction, s1)
  | some inst => inst.2.call rnd (init_opcode_args s1)

/-- The state built by the constructor before the ROM is loaded, the font
bytes apart (all arrays zero-filled, PC at the program start). -/
def blank : Chip8 :=
  { _opcode := 0
    _opcode_args := { nnn := 0, nn := 0, n := 0, x := 0, y := 0 }
    _memory := fun _ => 0
    _keypad := fun _ => 0
    _stack := fun _ => 0
    _cpu := { pc := PROGRAM_START_ADDRESS, i := 0, sp := 0, v := fun _ => 0 }
    _display := fun _ _ => 0
    _timer := { _delay := 0, _sound := 0 } }

/-! ## The instruction shapes of the specification -/

/-- The fixed (non-operand) nibbles of each instruction as the specification
names it: a mask selecting them and their value.  For `5XY0` the fixed nibbles
are the first and the last, so the mask is `0xF00F` and the value `0x5000`. -/
def Handler.fixed : Handler → Nat × Nat
  | .inst_00E0 => (0xFFFF, 0x00E0)
  | .inst_00EE => (0xFFFF, 0x00EE)
  | .inst_1NNN => (0xF000, 0x1000)
  | .inst_2NNN => (0xF000, 0x2000)
  | .inst_3XNN => (0xF000, 0x3000)
  | .inst_4XNN => (0xF000, 0x4000)
  | .inst_5XY0 => (0xF00F, 0x5000)
  | .inst_6XNN => (0xF000, 0x6000)
  | .inst_7XNN => (0xF000, 0x7000)
  | .inst_8XY0 => (0xF00F, 0x8000)
  | .inst_8XY1 => (0xF00F, 0x8001)
  | .inst_8XY2 => (0xF00F, 0x8002)
  | .inst_8XY3 => (0xF00F, 0x8003)
  | .inst_8XY4 => (0xF00F, 0x8004)
  | .inst_8XY5 => (0xF00F, 0x8005)
  | .inst_8XY6 => (0xF00F, 0x8006)
  | .inst_8XY7 => (0xF00F, 0x8007)
  | .inst_8XYE => (0xF00F, 0x800E)
  | .inst_9XY0 => (0xF00F, 0x9000)
  | .inst_ANNN => (0xF000, 0xA000)
  | .inst_BNNN => (0xF000, 0xB000)
  | .inst_CXNN => (0xF000, 0xC000)
  | .inst_DXYN => (0xF000, 0xD000)
  | .inst_EX9E => (0xF0FF, 0xE09E)
  | .inst_EXA1 => (0xF0FF, 0xE0A1)
  | .inst_FX07 => (0xF0FF, 0xF007)
  | .inst_FX0A => (0xF0FF, 0xF00A)
  | .inst_FX15 => (0xF0FF, 0xF015)
  | .inst_FX18 => (0xF0FF, 0xF018)
  | .inst_FX1E => (0xF0FF, 0xF01E)
  | .inst_FX29 => (0xF0FF, 0xF029)
  | .inst_FX33 => (0xF0FF, 0xF033)
  | .inst_FX55 => (0xF0FF, 0xF055)
  | .inst_FX65 => (0xF0FF, 0xF065)

/-- The opcode has the shape of the instruction: its fixed nibbles are those
of the instruction, the operand nibbles are arbitrary. -/
def has_shape (h : Handler) (opcode : Nat) : Bool :=
  opcode &&& h.fixed.1 == h.fixed.2

/-- All 35 instructions. -/
def Handler.all : List Handler :=
  init_opcode_table.map Prod.snd

/-- Symbolic run of the scan for all opcodes with fixed bits `val` under the
mask `m`: every entry before the one of `h` is rejected on the fixed bits
alone, and the first entry not so rejected is the one of `h` and accepts
whatever the operand bits are. -/
def shape_scan (m val : Nat) (h : Handler) : List (Nat × Handler) → Bool
  | [] => false
  | entry :: rest =>
    if val &&& entry.1 != val then shape_scan m val h rest
    else (entry.2 == h) && (m ||| entry.1 == 0xFFFF)

/-! ## Test programs and drivers -/

/-- The state `s` with the opcode word `hi lo` placed at the program counter. -/
def with_word (s : Chip8) (hi lo : Nat) : Chip8 :=
  { s with _memory := upd (upd s._memory s._cpu.pc hi) (s._cpu.pc + 1) lo }

/-- One `Call` per element of `targets`, in order, each with its own operand
`nnn`; the first exception ends the run. -/
def run_calls : List Nat → Chip8 → Outcome
  | [], s => .ok s
  | nnn :: rest, s =>
    match inst_2NNN { s with _opcode_args := { s._opcode_args with nnn := nnn } } with
    | .ok s1 => run_calls rest s1
    | .error e => .error e

/-- A `Call` followed, when it returns normally, by a `Return`. -/
def call_then_return (s : Chip8) : Outcome :=
  match inst_2NNN s with
  | .ok s1 => inst_00EE s1
  | .error e => .error e

/-- The blank state with every pixel of the display set. -/
def lit_screen : Chip8 :=
  { blank with _display := fun _ _ => 1 }

/-- The blank state with `V0 = a` and `VF = f`. -/
def regs_0F (a f : Nat) : Chip8 :=
  setV (setV blank 0 a) 0xF f

/-- The blank state with `V1 = a` and `VF = f`. -/
def regs_1F (a f : Nat) : Chip8 :=
  setV (setV blank 1 a) 0xF f

/-! ## Predicates describing a draw -/

/-- Everything a draw leaves alone: all of the state but the display and
`V[0xF]`. -/
def draw_frame (s t : Chip8) : Prop :=
  t._opcode = s._opcode ∧ t._opcode_args = s._opcode_args ∧ t._memory = s._memory ∧
  t._keypad = s._keypad ∧ t._stack = s._stack ∧ t._cpu.pc = s._cpu.pc ∧
  t._cpu.i = s._cpu.i ∧ t._cpu.sp = s._cpu.sp ∧ t._timer = s._timer ∧
  ∀ j, j ≠ 0xF → t._cpu.v j = s._cpu.v j

/-- Some set sprite bit among the (row, bit) positions in `P` lands on the
cell `(r, c)`; `spr row` is the sprite byte of the row. -/
def sprite_hits (cx cy : Nat) (spr : Nat → Nat) (P : Nat → Nat → Prop) (r c : Nat) : Prop :=
  ∃ row bit, P row bit ∧ sprite_bit (spr row) bit = true ∧
    (cy + row) % 32 = r ∧ (cx + bit) % 64 = c

/-- Some set sprite bit among the positions in `P` lands on a cell that is set
in the display `d`. -/
def sprite_collides (cx cy : Nat) (spr : Nat → Nat) (P : Nat → Nat → Prop)
    (d : Nat → Nat → Nat) : Prop :=
  ∃ row bit, P row bit ∧ sprite_bit (spr row) bit = true ∧
    d ((cy + row) % 32) ((cx + bit) % 64) ≠ 0

/-- The state `t` is the state `s` after the sprite positions in `P` have been
drawn: hit cells are flipped, the others kept, and `V[0xF]` is 1 when a hit
cell was set in `s` and otherwise as in `s`. -/
structure Blit (cx cy : Nat) (spr : Nat → Nat) (P : Nat → Nat → Prop) (s t : Chip8) : Prop where
  frame : draw_frame s t
  flip : ∀ r c, sprite_hits cx cy spr P r c → t._display r c = s._display r c ^^^ 1
  keep : ∀ r c, ¬ sprite_hits cx cy spr P r c → t._display r c = s._display r c
  flag_set : sprite_collides cx cy spr P s._display → t._cpu.v 0xF = 1
  flag_keep : ¬ sprite_collides cx cy spr P s._display → t._cpu.v 0xF = s._cpu.v 0xF

/-- The sprite positions drawn when the outer loop is at row `k` and the inner
loop at bit `j`: all 8 bits of the rows before `k` and the bits before `j` of
row `k`. -/
def drawn_before (k j : Nat) (row bit : Nat) : Prop :=
  bit < 8 ∧ (row < k ∨ (row = k ∧ bit < j))

/-- A state about to draw: `I = 0x300`, the sprite bytes `0x80, 0x80` at `I`
and `I + 1`, all registers 0, a blank display, and the opcode `0xD011`
(`x = 0`, `y = 1`, `n = 1`) at the program counter. -/
def sprite_demo : Chip8 :=
  with_word
    (setI { blank with _memory := upd (upd blank._memory 0x300 0x80) 0x301 0x80 } 0x300)
    0xD0 0x11

/-- The state `sprite_demo` with every pixel set and the opcode `0xD011`
decoded, as it is when the draw handler is entered. -/
def sprite_demo_lit : Chip8 :=
  init_opcode_args { sprite_demo with _opcode := 0xD011, _display := fun _ _ => 1 }

/-! ## Timers, ROM load and the run loop -/

/-- Member function `update_timers`: each timer is decremented when it is above
zero (the beep written to the console when the sound timer is 1 is left
out). -/
def update_timers (s : Chip8) : Chip8 :=
  let s1 := if s._timer._delay > 0
    then { s with _timer := { s._timer with _delay := s._timer._delay - 1 } } else s
  if s1._timer._sound > 0
    then { s1 with _timer := { s1._timer with _sound := s1._timer._sound - 1 } } else s1

/-- The call `read(dst, count)` on a stream positioned at the start of a file
holding `bytes`: the bytes are stored at consecutive addresses from `addr`. -/
def read_into (mem : Nat → Nat) (addr : Nat) : List Nat → Nat → Nat
  | [] => mem
  | b :: rest => read_into (upd mem addr b) (addr + 1) rest

/-- Member function `load_game`; `file` is `none` when the ROM cannot be
opened and otherwise the bytes of the ROM, whose number is what `tellg()`
returns on the stream opened at its end.  The call `seekg(std::ifstream::beg)`
passes the enumerator `beg`, whose value is 0, as a position, so the stream is
rewound to the start; the `read` then asks for `MEMORY_SIZE` bytes and gets
those the file has.

Modelled from the spec: `_memory.size()` comes from the declaration of
`_memory` in `chip8.h`; the spec gives a memory of 4096 bytes, which is
`MEMORY_SIZE`. -/
def load_game (file : Option (List Nat)) (s : Chip8) : Outcome :=
  match file with
  | none => .error (Fault.cannot_open_rom, s)
  | some rom =>
    if rom.length > MEMORY_SIZE - PROGRAM_START_ADDRESS then
      .error (Fault.rom_too_big, s)
    else
      .ok { s with
        _memory := read_into s._memory PROGRAM_START_ADDRESS (rom.take MEMORY_SIZE) }

/-- Member function `update_key` for the key mapped to keypad entry `idx`:
`_keypad[idx] = state`. -/
def update_key (idx state : Nat) (s : Chip8) : Chip8 :=
  { s with _keypad := upd s._keypad idx state }

/-- The states the loop of `run` can be in: it starts with an empty stack
(`sp = 0`, as the constructor leaves it) and then, any number of times, records
key events, executes one instruction with `handle_opcode` without an exception,
or ticks the timers. -/
inductive Reachable : Chip8 → Prop where
  | start (s : Chip8) (h : s._cpu.sp = 0) : Reachable s
  | key (s : Chip8) (idx state : Nat) (hs : Reachable s) : Reachable (update_key idx state s)
  | exec (s s' : Chip8) (rnd : Nat) (hs : Reachable s) (h : handle_opcode rnd s = .ok s') :
      Reachable s'
  | tick (s : Chip8) (hs : Reachable s) : Reachable (update_timers s)

/-- The memory after the first `k` stores of the loop of `inst_FX55`. -/
def dumped (s : Chip8) (k : Nat) : Nat → Nat :=
  fun a => if s._cpu.i ≤ a ∧ a < s._cpu.i + k then s._cpu.v (a - s._cpu.i) else s._memory a

/-- The registers after the first `k` stores of the loop of `inst_FX65`. -/
def loaded (s : Chip8) (k : Nat) : Nat → Nat :=
  fun j => if j < k then s._memory (s._cpu.i + j) else s._cpu.v j

/-- The blank state with `VF = 5`, `I = 0x10` and the opcode `0xFF1E` at the
program counter. -/
def index_demo : Chip8 :=
  with_word (setI (setV blank 0xF 5) 0x10) 0xFF 0x1E

/-- The state entering `inst_8XY6` for the opcode `0x8F06` with `VF = 1`. -/
def shift_demo : Chip8 :=
  init_opcode_args { setV blank 0xF 1 with _opcode := 0x8F06 }

/-- The state entering `inst_FX33` for the opcode `0xF533` with `V5 = 157` and
`I = 0x300`. -/
def bcd_demo : Chip8 :=
  init_opcode_args { setI (setV blank 5 157) 0x300 with _opcode := 0xF533 }

/-- The state `bcd_demo` with key 7 pressed. -/
def key_demo : Chip8 :=
  update_key 7 KEY_PRESSED bcd_demo

/-! # Theorems -/

/-! ## Decode: the scan finds the entry of the shaped instruction -/

/-- An opcode whose fixed bits `val` (under the mask `m`) are not contained in
the pattern `P` is not contained in `P`. -/
theorem land_ne_of_fixed {op m val P : Nat} (hs : op &&& m = val)
    (hne : val &&& P ≠ val) : P &&& op ≠ op := by
  intro h
  apply hne
  have h' : op &&& P = op := by rw [Nat.and_comm]; exact h
  calc val &&& P = (op &&& m) &&& P := by rw [hs]
    _ = (op &&& P) &&& m := by rw [Nat.and_assoc, Nat.and_comm m P, ← Nat.and_assoc]
    _ = op &&& m := by rw [h']
    _ = val := hs

/-- A 16-bit opcode whose fixed bits are contained in the pattern `P`, where
`P` has every bit outside the mask set, is contained in `P`. -/
theorem land_eq_of_fixed {op m val P : Nat} (hop : op < 65536) (hs : op &&& m = val)
    (hcov : m ||| P = 0xFFFF) (hv : val &&& P = val) : P &&& op = op := by
  have h16 : op &&& 0xFFFF = op := by
    have := Nat.and_pow_two_sub_one_eq_mod op 16
    simp at this
    omega
  apply Nat.eq_of_testBit_eq
  intro i
  have a1 := congrArg (fun t => t.testBit i) h16
  have a2 := congrArg (fun t => t.testBit i) hs
  have a3 := congrArg (fun t => t.testBit i) hcov
  have a4 := congrArg (fun t => t.testBit i) hv
  simp only [Nat.testBit_and, Nat.testBit_or] at a1 a2 a3 a4 ⊢
  rw [← a3] at a1
  rw [← a2] at a4
  revert a1 a4
  cases op.testBit i <;> cases P.testBit i <;> cases m.testBit i <;> simp

/-- An opcode contained in `P` also satisfies the second test of the scan. -/
theorem lor_eq_of_land_eq {op P : Nat} (h : P &&& op = op) : P ||| op = P := by
  apply Nat.eq_of_testBit_eq
  intro i
  have a1 := congrArg (fun t => t.testBit i) h
  simp only [Nat.testBit_and, Nat.testBit_or] at a1 ⊢
  revert a1
  cases op.testBit i <;> cases P.testBit i <;> simp

theorem shape_scan_sound {op m val : Nat} {h : Handler} (hop : op < 65536)
    (hs : op &&& m = val) :
    ∀ tbl : List (Nat × Handler), shape_scan m val h tbl = true →
      ∃ P, tbl.find? (entry_matches op) = some (P, h) := by
  intro tbl
  induction tbl with
  | nil => intro hc; simp [shape_scan] at hc
  | cons entry rest ih =>
    intro hc
    unfold shape_scan at hc
    by_cases hne : val &&& entry.1 = val
    · simp only [hne, bne_self_eq_false, Bool.false_eq_true, ↓reduceIte, Bool.and_eq_true,
        beq_iff_eq] at hc
      obtain ⟨hh, hcov⟩ := hc
      have h1 : entry.1 &&& op = op := land_eq_of_fixed hop hs hcov hne
      have h2 : entry.1 ||| op = entry.1 := lor_eq_of_land_eq h1
      refine ⟨entry.1, ?_⟩
      have hm : entry_matches op entry = true := by
        simp [entry_matches, h1, h2]
      rw [List.find?_cons, hm]
      rw [← hh]
    · have hb : (val &&& entry.1 != val) = true := by simpa using hne
      rw [if_pos hb] at hc
      have h1 : entry.1 &&& op ≠ op := land_ne_of_fixed hs hne
      have hm : entry_matches op entry = false := by
        simp [entry_matches, h1]
      rw [List.find?_cons, hm]
      exact ih hc

theorem shape_scan_table (h : Handler) :
    shape_scan h.fixed.1 h.fixed.2 h init_opcode_table = true := by
  cases h <;> rfl

theorem fetch_lt (s : Chip8) : fetch s < 65536 := by
  unfold fetch
  exact Nat.mod_lt _ (by norm_num)

/-- The scan of `handle_opcode` finds, for an opcode with the shape of an
instruction, the entry registered for that instruction. -/
theorem find_entry_of_shape {op : Nat} {h : Handler} (hop : op < 65536)
    (hs : has_shape h op = true) : ∃ P, find_entry op = some (P, h) := by
  have hs' : op &&& h.fixed.1 = h.fixed.2 := by simpa [has_shape] using hs
  exact shape_scan_sound hop hs' init_opcode_table (shape_scan_table h)

/-- The table has 34 entries, one for each instruction named in the list
`00E0, 00EE, 1NNN, ..., FX65`, in strictly ascending key order. -/
theorem init_opcode_table_sorted :
    init_opcode_table.length = 34 ∧
    (init_opcode_table.map Prod.fst).Pairwise (fun a b => a < b) := by
  constructor
  · rfl
  · decide

/-- The operand fields decoded from an opcode are nibbles, a byte and a 12-bit
address. -/
theorem init_opcode_args_bounds (s : Chip8) :
    (init_opcode_args s)._opcode_args.n < 16 ∧ (init_opcode_args s)._opcode_args.x < 16 ∧
    (init_opcode_args s)._opcode_args.y < 16 ∧ (init_opcode_args s)._opcode_args.nn < 256 ∧
    (init_opcode_args s)._opcode_args.nnn < 4096 := by
  have h1 : s._opcode &&& 0x000F ≤ 0x000F := Nat.and_le_right
  have h2 : s._opcode &&& 0x0F00 ≤ 0x0F00 := Nat.and_le_right
  have h3 : s._opcode &&& 0x00F0 ≤ 0x00F0 := Nat.and_le_right
  have h4 : s._opcode &&& 0x00FF ≤ 0x00FF := Nat.and_le_right
  have h5 : s._opcode &&& 0x0FFF ≤ 0x0FFF := Nat.and_le_right
  refine ⟨?_, ?_, ?_, ?_, ?_⟩
  · show s._opcode &&& 0x000F < 16
    omega
  · show (s._opcode &&& 0x0F00) >>> 8 < 16
    rw [Nat.shiftRight_eq_div_pow]
    omega
  · show (s._opcode &&& 0x00F0) >>> 4 < 16
    rw [Nat.shiftRight_eq_div_pow]
    omega
  · show s._opcode &&& 0x00FF < 256
    omega
  · show s._opcode &&& 0x0FFF < 4096
    omega

/-- No handler throws the decode fault. -/
theorem Handler.call_ne_illegal (h : Handler) (rnd : Nat) (s st : Chip8) :
    h.call rnd s ≠ .error (Fault.illegal_instruction, st) := by
  intro hc
  cases h
  case inst_00EE =>
    simp only [Handler.call, Chip8.inst_00EE] at hc
    split at hc <;> cases hc
  case inst_2NNN =>
    simp only [Handler.call, Chip8.inst_2NNN] at hc
    split at hc <;> cases hc
  case inst_FX0A =>
    simp only [Handler.call, Chip8.inst_FX0A] at hc
    split at hc <;> cases hc
  all_goals cases hc

/-- When `handle_opcode` throws the decode fault: exactly when the set bits of
the fetched word are contained in no pattern of the table; the state at the
throw is the old state with the word stored in `_opcode`. -/
theorem handle_opcode_fault_iff (rnd : Nat) (s : Chip8) :
    ((∃ st, handle_opcode rnd s = .error (Fault.illegal_instruction, st)) ↔
      ∀ entry ∈ init_opcode_table, entry.1 &&& fetch s ≠ fetch s) ∧
    ((∀ entry ∈ init_opcode_table, entry.1 &&& fetch s ≠ fetch s) →
      handle_opcode rnd s = .error (Fault.illegal_instruction, { s with _opcode := fetch s })) := by
  have hnone : (∀ entry ∈ init_opcode_table, entry.1 &&& fetch s ≠ fetch s) →
      find_entry (fetch s) = none := by
    intro hall
    unfold find_entry
    rw [List.find?_eq_none]
    intro entry he
    have := hall entry he
    simp [entry_matches, this]
  have hfault : (∀ entry ∈ init_opcode_table, entry.1 &&& fetch s ≠ fetch s) →
      handle_opcode rnd s =
        .error (Fault.illegal_instruction, { s with _opcode := fetch s }) := by
    intro hall
    simp only [handle_opcode, hnone hall]
  refine ⟨⟨?_, fun hall => ⟨_, hfault hall⟩⟩, hfault⟩
  rintro ⟨st, hst⟩ entry he hsub
  have hm : entry_matches (fetch s) entry = true := by
    simp [entry_matches, hsub, lor_eq_of_land_eq hsub]
  have hsome : (find_entry (fetch s)).isSome = true := by
    unfold find_entry
    rw [List.find?_isSome]
    exact ⟨entry, he, hm⟩
  obtain ⟨inst, hinst⟩ := Option.isSome_iff_exists.mp hsome
  simp only [handle_opcode, hinst] at hst
  exact Handler.call_ne_illegal _ _ _ _ hst

/-! ## Dispatch -/

/-- C1: for every opcode with the shape of one of the 35 instructions,
`handle_opcode` (fetching the word big-endian at PC and scanning the table in
ascending pattern order) returns what the handler of exactly that instruction
returns on the state with the opcode and its operand fields stored; the word
with bytes `hi`, `lo` is `256 * hi + lo`; opcode `0x00E0` clears the display,
`0x1234` sets PC to `0x234`, and `0x6A05` sets `V[0xA]` to 5 and advances PC
by 2. -/
theorem handle_opcode_dispatch (rnd : Nat) (s : Chip8) :
    (∀ h : Handler, has_shape h (fetch s) = true →
      handle_opcode rnd s = h.call rnd (init_opcode_args { s with _opcode := fetch s })) ∧
    (∀ hi lo : Nat, hi < 256 → lo < 256 → s._memory s._cpu.pc = hi →
      s._memory (s._cpu.pc + 1) = lo → fetch s = 256 * hi + lo) ∧
    (fetch s = 0x00E0 →
      ∃ s', handle_opcode rnd s = .ok s' ∧ ∀ r c, s'._display r c = 0) ∧
    (fetch s = 0x1234 →
      ∃ s', handle_opcode rnd s = .ok s' ∧ s'._cpu.pc = 0x234) ∧
    (fetch s = 0x6A05 →
      ∃ s', handle_opcode rnd s = .ok s' ∧ s'._cpu.v 0xA = 5 ∧
        s'._cpu.pc = (s._cpu.pc + 2) % 65536 ∧
        (s._cpu.pc + 1 < MEMORY_SIZE → s'._cpu.pc = s._cpu.pc + 2)) := by
  have main : ∀ h : Handler, has_shape h (fetch s) = true →
      handle_opcode rnd s = h.call rnd (init_opcode_args { s with _opcode := fetch s }) := by
    intro h hs
    obtain ⟨P, hP⟩ := find_entry_of_shape (fetch_lt s) hs
    simp only [handle_opcode, hP]
  refine ⟨main, ?_, ?_, ?_, ?_⟩
  · intro hi lo hhi hlo h1 h2
    unfold fetch
    have hor : 2 ^ 8 * hi + lo = 2 ^ 8 * hi ||| lo :=
      Nat.mul_add_lt_is_or (by simpa using hlo) hi
    rw [h1, h2, Nat.shiftLeft_eq, Nat.mul_comm hi, ← hor]
    omega
  · intro hf
    have hs : has_shape .inst_00E0 (fetch s) = true := by rw [hf]; rfl
    rw [main _ hs]
    exact ⟨_, rfl, fun _ _ => rfl⟩
  · intro hf
    have hs : has_shape .inst_1NNN (fetch s) = true := by rw [hf]; rfl
    rw [main _ hs]
    refine ⟨_, rfl, ?_⟩
    show (fetch s) &&& 0x0FFF = 0x234
    rw [hf]
    rfl
  · intro hf
    have hs : has_shape .inst_6XNN (fetch s) = true := by rw [hf]; rfl
    rw [main _ hs]
    refine ⟨_, rfl, ?_, rfl, ?_⟩
    · show upd s._cpu.v (((fetch s) &&& 0x0F00) >>> 8) ((fetch s) &&& 0x00FF) 0xA = 5
      rw [hf]
      rfl
    · intro hb
      show (s._cpu.pc + 2) % 65536 = s._cpu.pc + 2
      unfold MEMORY_SIZE at hb
      omega

theorem handle_opcode_dispatch_witness :
    has_shape .inst_6XNN (fetch (with_word blank 0x6A 0x05)) = true ∧
    handle_opcode 0 (with_word blank 0x6A 0x05) =
      Handler.inst_6XNN.call 0
        (init_opcode_args
          { with_word blank 0x6A 0x05 with _opcode := fetch (with_word blank 0x6A 0x05) }) :=
  ⟨by decide, (handle_opcode_dispatch 0 (with_word blank 0x6A 0x05)).1 .inst_6XNN (by decide)⟩

/-- C2 (the code on the failing inputs): the word `0x0000` has the shape of no
instruction, yet `handle_opcode` raises no fault on it: it runs `inst_00E0`,
which clears a lit display and advances PC; likewise `0x5AB1` runs
`inst_7XNN` and adds `0xB1` to `V[0xA]`.  The word `0xFFFF` raises the decode
fault. -/
theorem handle_opcode_unshaped_runs :
    (∀ h ∈ Handler.all, has_shape h 0x0000 = false) ∧
    fetch (with_word lit_screen 0x00 0x00) = 0x0000 ∧
    lit_screen._display 0 0 = 1 ∧
    (∃ s', handle_opcode 0 (with_word lit_screen 0x00 0x00) = .ok s' ∧
      s'._display 0 0 = 0 ∧ s'._cpu.pc = 0x202) ∧
    (∀ h ∈ Handler.all, has_shape h 0x5AB1 = false) ∧
    fetch (with_word blank 0x5A 0xB1) = 0x5AB1 ∧
    (∃ s', handle_opcode 0 (with_word blank 0x5A 0xB1) = .ok s' ∧
      s'._cpu.v 0xA = 0xB1 ∧ s'._cpu.pc = 0x202) ∧
    (∃ s', handle_opcode 0 (with_word blank 0xFF 0xFF) =
      .error (Fault.illegal_instruction, s')) := by
  refine ⟨by decide, by decide, rfl, ⟨_, rfl, rfl, rfl⟩, by decide, by decide,
    ⟨_, rfl, rfl, rfl⟩, ⟨_, rfl⟩⟩

/-! ## Add and subtract with flag -/

/-- What `inst_8XY4` computes when neither operand register is `VF`: the carry
in `VF` and the wrapped sum in `Vx`. -/
theorem inst_8XY4_no_alias (s : Chip8) (hx : s._opcode_args.x ≠ 0xF)
    (hy : s._opcode_args.y ≠ 0xF) :
    ∃ s', inst_8XY4 s = .ok s' ∧
      s'._cpu.v 0xF =
        (if s._cpu.v s._opcode_args.x + s._cpu.v s._opcode_args.y > 255 then 1 else 0) ∧
      s'._cpu.v s._opcode_args.x =
        (s._cpu.v s._opcode_args.x + s._cpu.v s._opcode_args.y) % 256 := by
  refine ⟨_, rfl, ?_, ?_⟩
  · simp [pc_add2, setPC, setV, upd, Ne.symm hx]
  · simp [pc_add2, setPC, setV, upd, hx, hy]

/-- C3 (the code on the failing inputs): with `y = 0xF` (opcode `0x80F4`,
`V0 = 3`, `VF = 5`) the addend is the freshly stored flag, so `V0` stays 3
where the sum is 8; with `x = 0xF` (opcode `0x8F14`, `VF = 200`, `V1 = 100`)
`VF` ends as flag plus `V1`, 101, where the carry is 1. -/
theorem inst_8XY4_flag_clobbers_operand :
    (∃ s', handle_opcode 0 (with_word (regs_0F 3 5) 0x80 0xF4) = .ok s' ∧
      s'._cpu.v 0 = 3 ∧ s'._cpu.v 0xF = 0 ∧ (3 + 5) % 256 = 8) ∧
    (∃ s', handle_opcode 0 (with_word (regs_1F 100 200) 0x8F 0x14) = .ok s' ∧
      s'._cpu.v 0xF = 101 ∧ 200 + 100 > 255) := by
  exact ⟨⟨_, rfl, rfl, rfl, rfl⟩, ⟨_, rfl, rfl, by decide⟩⟩

/-- What `inst_8XY5` computes when neither operand register is `VF`: the
no-borrow flag in `VF` and the wrapped difference in `Vx`. -/
theorem inst_8XY5_no_alias (s : Chip8) (hx : s._opcode_args.x ≠ 0xF)
    (hy : s._opcode_args.y ≠ 0xF) :
    ∃ s', inst_8XY5 s = .ok s' ∧
      s'._cpu.v 0xF =
        (if s._cpu.v s._opcode_args.x < s._cpu.v s._opcode_args.y then 0 else 1) ∧
      s'._cpu.v s._opcode_args.x =
        (s._cpu.v s._opcode_args.x + 256 - s._cpu.v s._opcode_args.y % 256) % 256 := by
  refine ⟨_, rfl, ?_, ?_⟩
  · simp [pc_add2, setPC, setV, upd, Ne.symm hx]
  · simp [pc_add2, setPC, setV, upd, hx, hy]

/-- C4 (the code on the failing inputs): with `y = 0xF` (opcode `0x80F5`,
`V0 = 10`, `VF = 3`) the subtrahend is the freshly stored flag, so `V0` ends
as 9 where the difference is 7; with `x = 0xF` (opcode `0x8F15`, `VF = 5`,
`V1 = 2`) `VF` ends as flag minus `V1` wrapped, 255, where the flag is 1. -/
theorem inst_8XY5_flag_clobbers_operand :
    (∃ s', handle_opcode 0 (with_word (regs_0F 10 3) 0x80 0xF5) = .ok s' ∧
      s'._cpu.v 0 = 9 ∧ s'._cpu.v 0xF = 1 ∧ (10 - 3) % 256 = 7) ∧
    (∃ s', handle_opcode 0 (with_word (regs_1F 2 5) 0x8F 0x15) = .ok s' ∧
      s'._cpu.v 0xF = 255 ∧ ¬ 5 < 2) := by
  exact ⟨⟨_, rfl, rfl, rfl, rfl⟩, ⟨_, rfl, rfl, by decide⟩⟩

/-! ## Call and return -/

theorem inst_2NNN_ok (s : Chip8) (h : s._cpu.sp < 15) :
    inst_2NNN s =
      .ok (setPC (setSP { s with _stack := upd s._stack s._cpu.sp s._cpu.pc } (s._cpu.sp + 1))
        s._opcode_args.nnn) := by
  have h' : s._cpu.sp < STACK_SIZE - 1 := h
  simp only [inst_2NNN, if_pos h']
  rfl

theorem inst_2NNN_overflow (s : Chip8) (h : 15 ≤ s._cpu.sp) :
    inst_2NNN s = .error (Fault.stack_overflow, s) := by
  have h' : ¬ s._cpu.sp < STACK_SIZE - 1 := by
    show ¬ s._cpu.sp < 15
    omega
  simp only [inst_2NNN, if_neg h']

theorem inst_00EE_ok (s : Chip8) (h : 0 < s._cpu.sp) :
    inst_00EE s =
      .ok (setPC (setSP s (s._cpu.sp - 1)) ((s._stack (s._cpu.sp - 1) + 2) % 65536)) := by
  simp only [inst_00EE]
  rw [if_pos h]
  rfl

/-- C8 (the code on the failing input): at stack depth 15, which is less than
16, the `Call` itself raises the overflow fault with the state untouched, so
no `Return` follows; at every depth below 15 the round trip raises no fault
and leaves PC at the old PC plus 2 (on 16 bits) and SP at its old value. -/
theorem call_then_return_depth_15 (s : Chip8) :
    (s._cpu.sp = 15 → call_then_return s = .error (Fault.stack_overflow, s)) ∧
    (s._cpu.sp < 15 → ∃ s', call_then_return s = .ok s' ∧
      s'._cpu.pc = (s._cpu.pc + 2) % 65536 ∧ s'._cpu.sp = s._cpu.sp) := by
  constructor
  · intro h
    simp only [call_then_return, inst_2NNN_overflow s (by omega)]
  · intro h
    simp only [call_then_return, inst_2NNN_ok s h]
    rw [inst_00EE_ok _ (by show 0 < s._cpu.sp + 1; omega)]
    refine ⟨_, rfl, ?_, ?_⟩
    · simp [setPC, setSP, upd]
    · simp [setPC, setSP]

theorem call_then_return_depth_15_witness :
    (setSP blank 15)._cpu.sp < 16 ∧
    call_then_return (setSP blank 15) = .error (Fault.stack_overflow, setSP blank 15) :=
  ⟨by decide, (call_then_return_depth_15 (setSP blank 15)).1 rfl⟩

theorem run_calls_ok (targets : List Nat) :
    ∀ s : Chip8, s._cpu.sp + targets.length ≤ 15 →
      ∃ s', run_calls targets s = .ok s' ∧ s'._cpu.sp = s._cpu.sp + targets.length := by
  induction targets with
  | nil => intro s _; exact ⟨s, rfl, rfl⟩
  | cons nnn rest ih =>
    intro s h
    simp only [List.length_cons] at h
    have hsp : ({ s with _opcode_args := { s._opcode_args with nnn := nnn } } : Chip8)._cpu.sp
        < 15 := by
      show s._cpu.sp < 15
      omega
    simp only [run_calls, inst_2NNN_ok _ hsp]
    obtain ⟨s', h1, h2⟩ := ih
      (setPC (setSP { s with
        _opcode_args := { s._opcode_args with nnn := nnn }
        _stack := upd s._stack s._cpu.sp s._cpu.pc } (s._cpu.sp + 1)) nnn)
      (by show s._cpu.sp + 1 + rest.length ≤ 15; omega)
    refine ⟨s', h1, ?_⟩
    rw [h2]
    show s._cpu.sp + 1 + rest.length = s._cpu.sp + (rest.length + 1)
    omega

theorem run_calls_overflow (targets : List Nat) :
    ∀ s : Chip8, s._cpu.sp ≤ 15 → s._cpu.sp + targets.length = 16 →
      ∃ st, run_calls targets s = .error (Fault.stack_overflow, st) ∧ st._cpu.sp = 15 := by
  induction targets with
  | nil => intro s h1 h2; simp at h2; omega
  | cons nnn rest ih =>
    intro s h1 h2
    simp only [List.length_cons] at h2
    by_cases h15 : s._cpu.sp = 15
    · have hsp : 15 ≤
          ({ s with _opcode_args := { s._opcode_args with nnn := nnn } } : Chip8)._cpu.sp := by
        show 15 ≤ s._cpu.sp
        omega
      simp only [run_calls, inst_2NNN_overflow _ hsp]
      exact ⟨_, rfl, h15⟩
    · have hsp : ({ s with _opcode_args := { s._opcode_args with nnn := nnn } } : Chip8)._cpu.sp
          < 15 := by
        show s._cpu.sp < 15
        omega
      simp only [run_calls, inst_2NNN_ok _ hsp]
      exact ih _ (by show s._cpu.sp + 1 ≤ 15; omega)
        (by show s._cpu.sp + 1 + rest.length = 16; omega)

/-- C9 (the code on the failing input): from an empty stack 15 consecutive
calls succeed and leave SP = 15; the 16th call, not the 17th, raises the
stack overflow fault. -/
theorem run_calls_sixteenth_overflows (s : Chip8) (targets : List Nat) (h0 : s._cpu.sp = 0) :
    (targets.length = 15 → ∃ s', run_calls targets s = .ok s' ∧ s'._cpu.sp = 15) ∧
    (targets.length = 16 →
      ∃ st, run_calls targets s = .error (Fault.stack_overflow, st) ∧ st._cpu.sp = 15) := by
  constructor
  · intro hl
    obtain ⟨s', h1, h2⟩ := run_calls_ok targets s (by omega)
    exact ⟨s', h1, by omega⟩
  · intro hl
    exact run_calls_overflow targets s (by omega) (by omega)

theorem run_calls_sixteenth_overflows_witness :
    blank._cpu.sp = 0 ∧ (List.replicate 16 0x300).length = 16 ∧
    ∃ st, run_calls (List.replicate 16 0x300) blank = .error (Fault.stack_overflow, st) ∧
      st._cpu.sp = 15 :=
  ⟨rfl, rfl, (run_calls_sixteenth_overflows blank (List.replicate 16 0x300) rfl).2 rfl⟩

/-- C10: `Return` raises the stack underflow fault if and only if SP = 0 before
the instruction; the fault leaves the whole state as it was; with SP > 0 it
returns normally with SP decremented by one and PC set from the popped entry
(the entry plus 2 on 16 bits), nothing else changed. -/
theorem inst_00EE_underflow_iff (s : Chip8) :
    ((∃ st, inst_00EE s = .error (Fault.stack_underflow, st)) ↔ s._cpu.sp = 0) ∧
    (s._cpu.sp = 0 → inst_00EE s = .error (Fault.stack_underflow, s)) ∧
    (0 < s._cpu.sp →
      inst_00EE s =
        .ok (setPC (setSP s (s._cpu.sp - 1)) ((s._stack (s._cpu.sp - 1) + 2) % 65536))) := by
  have hz : s._cpu.sp = 0 → inst_00EE s = .error (Fault.stack_underflow, s) := by
    intro h
    simp only [inst_00EE, h]
    rfl
  have hp : 0 < s._cpu.sp →
      inst_00EE s =
        .ok (setPC (setSP s (s._cpu.sp - 1)) ((s._stack (s._cpu.sp - 1) + 2) % 65536)) :=
    inst_00EE_ok s
  refine ⟨⟨?_, fun h => ⟨s, hz h⟩⟩, hz, hp⟩
  rintro ⟨st, hst⟩
  by_contra hne
  rw [hp (by omega)] at hst
  cases hst

theorem inst_00EE_underflow_iff_witness :
    inst_00EE blank = .error (Fault.stack_underflow, blank) ∧
    inst_00EE (setSP blank 1) =
      .ok (setPC (setSP (setSP blank 1) ((setSP blank 1)._cpu.sp - 1))
        (((setSP blank 1)._stack ((setSP blank 1)._cpu.sp - 1) + 2) % 65536)) :=
  ⟨(inst_00EE_underflow_iff blank).2.1 rfl,
   (inst_00EE_underflow_iff (setSP blank 1)).2.2 (by decide)⟩

/-! ## The draw loop -/

theorem draw_frame_refl (s : Chip8) : draw_frame s s :=
  ⟨rfl, rfl, rfl, rfl, rfl, rfl, rfl, rfl, rfl, fun _ _ => rfl⟩

theorem draw_frame_trans {s t u : Chip8} (h1 : draw_frame s t) (h2 : draw_frame t u) :
    draw_frame s u := by
  obtain ⟨a1, a2, a3, a4, a5, a6, a7, a8, a9, a10⟩ := h1
  obtain ⟨b1, b2, b3, b4, b5, b6, b7, b8, b9, b10⟩ := h2
  exact ⟨b1.trans a1, b2.trans a2, b3.trans a3, b4.trans a4, b5.trans a5, b6.trans a6,
    b7.trans a7, b8.trans a8, b9.trans a9, fun j hj => (b10 j hj).trans (a10 j hj)⟩

theorem draw_frame_setV_F (s : Chip8) (x : Nat) : draw_frame s (setV s 0xF x) := by
  refine ⟨rfl, rfl, rfl, rfl, rfl, rfl, rfl, rfl, rfl, ?_⟩
  intro j hj
  simp [setV, upd, hj]

theorem draw_px_frame (cx cy px row bit : Nat) (t : Chip8) :
    draw_frame t (draw_px cx cy px row bit t) := by
  unfold draw_px
  by_cases hb : sprite_bit px bit = true
  · by_cases hd : t._display ((cy + row) % 32) ((cx + bit) % 64) = 0
    · simp only [hb, hd, if_true, ne_eq, not_true_eq_false, if_false]
      exact draw_frame_refl t
    · simp only [hb, hd, if_true, ne_eq, not_false_eq_true]
      exact draw_frame_setV_F t 1
  · simp only [hb, if_false, Bool.false_eq_true]
    exact draw_frame_refl t

theorem draw_px_display (cx cy px row bit : Nat) (t : Chip8) (r c : Nat) :
    (draw_px cx cy px row bit t)._display r c =
      if sprite_bit px bit = true ∧ r = (cy + row) % 32 ∧ c = (cx + bit) % 64
      then t._display r c ^^^ 1 else t._display r c := by
  unfold draw_px
  by_cases hb : sprite_bit px bit = true
  · by_cases hd : t._display ((cy + row) % 32) ((cx + bit) % 64) = 0
    · by_cases hrc : r = (cy + row) % 32 ∧ c = (cx + bit) % 64
      · obtain ⟨h1, h2⟩ := hrc
        subst h1 h2
        simp [hb, hd, upd2]
      · simp [hb, hd, upd2, hrc]
    · by_cases hrc : r = (cy + row) % 32 ∧ c = (cx + bit) % 64
      · obtain ⟨h1, h2⟩ := hrc
        subst h1 h2
        simp [hb, hd, upd2, setV]
      · simp [hb, hd, upd2, hrc, setV]
  · simp [hb]

theorem draw_px_flag (cx cy px row bit : Nat) (t : Chip8) :
    (draw_px cx cy px row bit t)._cpu.v 0xF =
      if sprite_bit px bit = true ∧ t._display ((cy + row) % 32) ((cx + bit) % 64) ≠ 0
      then 1 else t._cpu.v 0xF := by
  unfold draw_px
  by_cases hb : sprite_bit px bit = true
  · by_cases hd : t._display ((cy + row) % 32) ((cx + bit) % 64) = 0
    · simp [hb, hd]
    · simp [hb, hd, setV, upd]
  · simp [hb]

theorem Blit.congr {cx cy : Nat} {spr : Nat → Nat} {P Q : Nat → Nat → Prop} {s t : Chip8}
    (hb : Blit cx cy spr P s t) (hPQ : ∀ row bit, P row bit ↔ Q row bit) :
    Blit cx cy spr Q s t := by
  have hPQ' : P = Q := by
    funext row bit
    exact propext (hPQ row bit)
  rw [← hPQ']
  exact hb

theorem Blit.first (cx cy : Nat) (spr : Nat → Nat) (s : Chip8) :
    Blit cx cy spr (drawn_before 0 0) s s := by
  have hno : ∀ row bit, ¬ drawn_before 0 0 row bit := by
    intro row bit h
    obtain ⟨_, h | h⟩ := h
    · omega
    · omega
  refine ⟨draw_frame_refl s, ?_, fun _ _ _ => rfl, ?_, fun _ => rfl⟩
  · rintro r c ⟨row, bit, hP, _⟩
    exact absurd hP (hno row bit)
  · rintro ⟨row, bit, hP, _⟩
    exact absurd hP (hno row bit)

/-- Drawing one more position, whose cell no position drawn so far shares. -/
theorem Blit.step {cx cy : Nat} {spr : Nat → Nat} {P : Nat → Nat → Prop} {s t : Chip8}
    (hb : Blit cx cy spr P s t) (row0 bit0 : Nat)
    (hfresh : ∀ row bit, P row bit →
      ¬ ((cy + row) % 32 = (cy + row0) % 32 ∧ (cx + bit) % 64 = (cx + bit0) % 64)) :
    Blit cx cy spr (fun row bit => P row bit ∨ (row = row0 ∧ bit = bit0)) s
      (draw_px cx cy (spr row0) row0 bit0 t) := by
  have hnot : ¬ sprite_hits cx cy spr P ((cy + row0) % 32) ((cx + bit0) % 64) := by
    rintro ⟨row, bit, hP, _, h1, h2⟩
    exact hfresh row bit hP ⟨h1, h2⟩
  have hcell : t._display ((cy + row0) % 32) ((cx + bit0) % 64) =
      s._display ((cy + row0) % 32) ((cx + bit0) % 64) := hb.keep _ _ hnot
  refine ⟨draw_frame_trans hb.frame (draw_px_frame _ _ _ _ _ _), ?_, ?_, ?_, ?_⟩
  · rintro r c ⟨row, bit, hP | ⟨h1, h2⟩, hs, hr, hc⟩
    · have hh : sprite_hits cx cy spr P r c := ⟨row, bit, hP, hs, hr, hc⟩
      have hne : ¬ (r = (cy + row0) % 32 ∧ c = (cx + bit0) % 64) := by
        rintro ⟨e1, e2⟩
        exact hfresh row bit hP ⟨by omega, by omega⟩
      rw [draw_px_display, if_neg (fun h => hne h.2)]
      exact hb.flip r c hh
    · subst h1 h2
      rw [draw_px_display, if_pos ⟨hs, hr.symm, hc.symm⟩, ← hr, ← hc, hcell]
  · intro r c hn
    have hn' : ¬ sprite_hits cx cy spr P r c := by
      rintro ⟨row, bit, hP, hs, hr, hc⟩
      exact hn ⟨row, bit, Or.inl hP, hs, hr, hc⟩
    have hne : ¬ (sprite_bit (spr row0) bit0 = true ∧ r = (cy + row0) % 32 ∧
        c = (cx + bit0) % 64) := by
      rintro ⟨hs, e1, e2⟩
      exact hn ⟨row0, bit0, Or.inr ⟨rfl, rfl⟩, hs, e1.symm, e2.symm⟩
    rw [draw_px_display, if_neg hne]
    exact hb.keep r c hn'
  · rintro ⟨row, bit, hP | ⟨h1, h2⟩, hs, hd⟩
    · have hc : sprite_collides cx cy spr P s._display := ⟨row, bit, hP, hs, hd⟩
      rw [draw_px_flag]
      split
      · rfl
      · exact hb.flag_set hc
    · subst h1 h2
      rw [draw_px_flag, if_pos ⟨hs, by rw [hcell]; exact hd⟩]
  · intro hn
    have hn' : ¬ sprite_collides cx cy spr P s._display := by
      rintro ⟨row, bit, hP, hs, hd⟩
      exact hn ⟨row, bit, Or.inl hP, hs, hd⟩
    have hne : ¬ (sprite_bit (spr row0) bit0 = true ∧
        t._display ((cy + row0) % 32) ((cx + bit0) % 64) ≠ 0) := by
      rintro ⟨hs, hd⟩
      exact hn ⟨row0, bit0, Or.inr ⟨rfl, rfl⟩, hs, by rw [← hcell]; exact hd⟩
    rw [draw_px_flag, if_neg hne]
    exact hb.flag_keep hn'

theorem draw_bits_blit {cx cy : Nat} {spr : Nat → Nat} {s t : Chip8} {k : Nat} (hk : k < 32)
    (hb : Blit cx cy spr (drawn_before k 0) s t) :
    ∀ j, j ≤ 8 → Blit cx cy spr (drawn_before k j) s
      ((List.range j).foldl (fun st bit_pos => draw_px cx cy (spr k) k bit_pos st) t) := by
  intro j
  induction j with
  | zero => intro _; exact hb
  | succ j ih =>
    intro hj
    rw [List.range_succ, List.foldl_append]
    have hstep := Blit.step (ih (by omega)) k j (by
      intro row bit hP
      unfold drawn_before at hP
      omega)
    refine Blit.congr hstep ?_
    intro row bit
    unfold drawn_before
    omega

theorem draw_row_blit {cx cy : Nat} {s t : Chip8} {k : Nat} (hk : k < 32)
    (hb : Blit cx cy (fun row => s._memory (s._cpu.i + row)) (drawn_before k 0) s t) :
    Blit cx cy (fun row => s._memory (s._cpu.i + row)) (drawn_before (k + 1) 0) s
      (draw_row cx cy k t) := by
  obtain ⟨_, _, hmem, _, _, _, hi, _⟩ := hb.frame
  have h8 := draw_bits_blit hk hb 8 (le_refl 8)
  have hrow : draw_row cx cy k t =
      (List.range 8).foldl
        (fun st bit_pos => draw_px cx cy ((fun row => s._memory (s._cpu.i + row)) k) k bit_pos st)
        t := by
    simp only [draw_row, hmem, hi]
  rw [hrow]
  refine Blit.congr h8 ?_
  intro row bit
  unfold drawn_before
  omega

theorem draw_rows_blit (cx cy : Nat) (s t : Chip8)
    (hb : Blit cx cy (fun row => s._memory (s._cpu.i + row)) (drawn_before 0 0) s t) :
    ∀ n, n ≤ 32 → Blit cx cy (fun row => s._memory (s._cpu.i + row)) (drawn_before n 0) s
      ((List.range n).foldl (fun st row => draw_row cx cy row st) t) := by
  intro n
  induction n with
  | zero => intro _; exact hb
  | succ n ih =>
    intro hn
    rw [List.range_succ, List.foldl_append]
    exact draw_row_blit (by omega) (ih (by omega))

/-- The positions drawn when the outer loop has ended are the 8 bits of the
rows below `n`. -/
theorem drawn_before_end (n row bit : Nat) : drawn_before n 0 row bit ↔ row < n ∧ bit < 8 := by
  unfold drawn_before
  omega

/-- The state after `inst_DXYN`, relative to the state before it: hit cells
flipped, the others kept, `V[0xF]` the collision flag, PC advanced, and the
rest as before. -/
theorem inst_DXYN_blit (s : Chip8) (hn : s._opcode_args.n < 16) :
    ∃ s2, inst_DXYN s = .ok (pc_add2 s2) ∧
      Blit (s._cpu.v s._opcode_args.x) (s._cpu.v s._opcode_args.y)
        (fun row => s._memory (s._cpu.i + row))
        (fun row bit => row < s._opcode_args.n ∧ bit < 8) (setV s 0xF 0) s2 := by
  refine ⟨_, rfl, ?_⟩
  have h0 := Blit.first (s._cpu.v s._opcode_args.x) (s._cpu.v s._opcode_args.y)
    (fun row => (setV s 0xF 0)._memory ((setV s 0xF 0)._cpu.i + row)) (setV s 0xF 0)
  have h1 := draw_rows_blit _ _ _ _ h0 s._opcode_args.n (by omega)
  exact Blit.congr h1 (drawn_before_end _)

/-- The sprite test of `inst_DXYN` reads bit `7 - bit_pos` of the sprite byte. -/
theorem sprite_bit_eq_testBit (px bit_pos : Nat) (h : bit_pos < 8) :
    sprite_bit px bit_pos = px.testBit (7 - bit_pos) := by
  have hpow : 0x80 >>> bit_pos = 2 ^ (7 - bit_pos) := by
    interval_cases bit_pos <;> rfl
  unfold sprite_bit
  rw [hpow, Nat.and_two_pow]
  cases px.testBit (7 - bit_pos) <;> simp

/-- What `inst_DXYN` draws: the rows `0, ..., n - 1` of the sprite.  A cell hit
by a set sprite bit of one of these rows is flipped, every other cell is
kept, and I and the memory are as before. -/
theorem inst_DXYN_draws_rows_below_n (s : Chip8) (hn : s._opcode_args.n < 16) :
    ∃ s', inst_DXYN s = .ok s' ∧ s'._cpu.i = s._cpu.i ∧ s'._memory = s._memory ∧
      ∀ r c,
        ((∃ row bit, row < s._opcode_args.n ∧ bit < 8 ∧
            sprite_bit (s._memory (s._cpu.i + row)) bit = true ∧
            (s._cpu.v s._opcode_args.y + row) % 32 = r ∧
            (s._cpu.v s._opcode_args.x + bit) % 64 = c) →
          s'._display r c = s._display r c ^^^ 1) ∧
        ((¬ ∃ row bit, row < s._opcode_args.n ∧ bit < 8 ∧
            sprite_bit (s._memory (s._cpu.i + row)) bit = true ∧
            (s._cpu.v s._opcode_args.y + row) % 32 = r ∧
            (s._cpu.v s._opcode_args.x + bit) % 64 = c) →
          s'._display r c = s._display r c) := by
  obtain ⟨s2, hs2, hb⟩ := inst_DXYN_blit s hn
  obtain ⟨_, _, hmem, _, _, _, hi, _⟩ := hb.frame
  refine ⟨_, hs2, hi, hmem, ?_⟩
  intro r c
  constructor
  · rintro ⟨row, bit, h1, h2, h3, h4, h5⟩
    exact hb.flip r c ⟨row, bit, ⟨h1, h2⟩, h3, h4, h5⟩
  · intro hno
    refine hb.keep r c ?_
    rintro ⟨row, bit, ⟨h1, h2⟩, h3, h4, h5⟩
    exact hno ⟨row, bit, h1, h2, h3, h4, h5⟩

/-- C5 (the code on the failing input): for the opcode `0xD011` (`n = 1`) with
`I = 0x300`, `V0 = V1 = 0` and the sprite bytes `0x80, 0x80`, the draw flips the
pixel of row 0 and leaves the pixel of row 1, column 0 at 0, although bit 7 of
`memory[I + 1]` is set: it draws `n` rows, not `n + 1`. -/
theorem inst_DXYN_skips_row_n :
    fetch sprite_demo = 0xD011 ∧ sprite_demo._cpu.i + 1 < MEMORY_SIZE ∧
    (sprite_demo._memory (sprite_demo._cpu.i + 1)).testBit 7 = true ∧
    sprite_demo._display 1 0 = 0 ∧
    ∃ s', handle_opcode 0 sprite_demo = .ok s' ∧
      s'._display 0 0 = 1 ∧ s'._display 1 0 = 0 := by
  exact ⟨by decide, by decide, by decide, rfl, ⟨_, rfl, rfl, rfl⟩⟩

/-- C6: after a draw `VF = 1` if and only if some set sprite bit of a drawn row
(`row < n`, `bit < 8`) has a destination cell, at the wrapped coordinates,
that was set before the instruction, and `VF = 0` otherwise; on a display of
1-bit cells "set" is "equal to 1"; two different positions of the sprite
never share a cell. -/
theorem inst_DXYN_collision_flag (s : Chip8) (hn : s._opcode_args.n < 16) :
    ∃ s', inst_DXYN s = .ok s' ∧
      (s'._cpu.v 0xF = 1 ↔
        ∃ row bit, row < s._opcode_args.n ∧ bit < 8 ∧
          sprite_bit (s._memory (s._cpu.i + row)) bit = true ∧
          s._display ((s._cpu.v s._opcode_args.y + row) % 32)
            ((s._cpu.v s._opcode_args.x + bit) % 64) ≠ 0) ∧
      (s'._cpu.v 0xF = 0 ↔
        ¬ ∃ row bit, row < s._opcode_args.n ∧ bit < 8 ∧
          sprite_bit (s._memory (s._cpu.i + row)) bit = true ∧
          s._display ((s._cpu.v s._opcode_args.y + row) % 32)
            ((s._cpu.v s._opcode_args.x + bit) % 64) ≠ 0) ∧
      ((∀ r c, s._display r c ≤ 1) →
        (s'._cpu.v 0xF = 1 ↔
          ∃ row bit, row < s._opcode_args.n ∧ bit < 8 ∧
            sprite_bit (s._memory (s._cpu.i + row)) bit = true ∧
            s._display ((s._cpu.v s._opcode_args.y + row) % 32)
              ((s._cpu.v s._opcode_args.x + bit) % 64) = 1)) ∧
      (∀ row bit row' bit', row < s._opcode_args.n → row' < s._opcode_args.n →
        bit < 8 → bit' < 8 →
        (s._cpu.v s._opcode_args.y + row) % 32 = (s._cpu.v s._opcode_args.y + row') % 32 →
        (s._cpu.v s._opcode_args.x + bit) % 64 = (s._cpu.v s._opcode_args.x + bit') % 64 →
        row = row' ∧ bit = bit') := by
  obtain ⟨s2, hs2, hb⟩ := inst_DXYN_blit s hn
  have hset : (∃ row bit, row < s._opcode_args.n ∧ bit < 8 ∧
      sprite_bit (s._memory (s._cpu.i + row)) bit = true ∧
      s._display ((s._cpu.v s._opcode_args.y + row) % 32)
        ((s._cpu.v s._opcode_args.x + bit) % 64) ≠ 0) → s2._cpu.v 0xF = 1 := by
    rintro ⟨row, bit, h1, h2, h3, h4⟩
    exact hb.flag_set ⟨row, bit, ⟨h1, h2⟩, h3, h4⟩
  have hclr : (¬ ∃ row bit, row < s._opcode_args.n ∧ bit < 8 ∧
      sprite_bit (s._memory (s._cpu.i + row)) bit = true ∧
      s._display ((s._cpu.v s._opcode_args.y + row) % 32)
        ((s._cpu.v s._opcode_args.x + bit) % 64) ≠ 0) → s2._cpu.v 0xF = 0 := by
    intro hno
    have h := hb.flag_keep (by
      rintro ⟨row, bit, ⟨h1, h2⟩, h3, h4⟩
      exact hno ⟨row, bit, h1, h2, h3, h4⟩)
    rw [h]
    simp [setV, upd]
  have hiff1 : s2._cpu.v 0xF = 1 ↔
      ∃ row bit, row < s._opcode_args.n ∧ bit < 8 ∧
        sprite_bit (s._memory (s._cpu.i + row)) bit = true ∧
        s._display ((s._cpu.v s._opcode_args.y + row) % 32)
          ((s._cpu.v s._opcode_args.x + bit) % 64) ≠ 0 := by
    constructor
    · intro h1
      by_contra hno
      have := hclr hno
      omega
    · exact hset
  refine ⟨_, hs2, hiff1, ?_, ?_, ?_⟩
  · constructor
    · intro h0 hex
      have := hset hex
      have h0' : s2._cpu.v 0xF = 0 := h0
      omega
    · exact hclr
  · intro hd
    refine hiff1.trans ?_
    constructor
    · rintro ⟨row, bit, h1, h2, h3, h4⟩
      refine ⟨row, bit, h1, h2, h3, ?_⟩
      have := hd ((s._cpu.v s._opcode_args.y + row) % 32)
        ((s._cpu.v s._opcode_args.x + bit) % 64)
      omega
    · rintro ⟨row, bit, h1, h2, h3, h4⟩
      exact ⟨row, bit, h1, h2, h3, by omega⟩
  · intro row bit row' bit' h1 h2 h3 h4 h5 h6
    omega

theorem inst_DXYN_collision_flag_witness :
    sprite_demo_lit._opcode_args.n < 16 ∧
    ∃ s', inst_DXYN sprite_demo_lit = .ok s' ∧ s'._cpu.v 0xF = 1 := by
  obtain ⟨s', h1, h2, _⟩ := inst_DXYN_collision_flag sprite_demo_lit (by decide)
  exact ⟨by decide, s', h1, h2.mpr ⟨0, 0, by decide, by decide, by decide, by decide⟩⟩

/-- C7: when neither register index of the opcode is `0xF`, running the draw
handler twice in succession (the first draw leaves I, the memory and the
operand fields as they were) leaves every cell of the display as it was
before the first draw. -/
theorem inst_DXYN_twice_restores (s : Chip8) (hn : s._opcode_args.n < 16)
    (hx : s._opcode_args.x ≠ 0xF) (hy : s._opcode_args.y ≠ 0xF) :
    ∃ s1 s2, inst_DXYN s = .ok s1 ∧ inst_DXYN s1 = .ok s2 ∧
      s1._cpu.i = s._cpu.i ∧ s1._memory = s._memory ∧
      ∀ r c, s2._display r c = s._display r c := by
  obtain ⟨t1, ht1, hb1⟩ := inst_DXYN_blit s hn
  obtain ⟨_, hargs, hmem, _, _, _, hi, _, _, hv⟩ := hb1.frame
  have hargs' : (pc_add2 t1)._opcode_args = s._opcode_args := hargs
  have hmem' : (pc_add2 t1)._memory = s._memory := hmem
  have hi' : (pc_add2 t1)._cpu.i = s._cpu.i := hi
  have hvx : (pc_add2 t1)._cpu.v s._opcode_args.x = s._cpu.v s._opcode_args.x := by
    have := hv s._opcode_args.x hx
    simpa [setV, upd, hx] using this
  have hvy : (pc_add2 t1)._cpu.v s._opcode_args.y = s._cpu.v s._opcode_args.y := by
    have := hv s._opcode_args.y hy
    simpa [setV, upd, hy] using this
  obtain ⟨t2, ht2, hb2⟩ := inst_DXYN_blit (pc_add2 t1) (by rw [hargs']; exact hn)
  rw [hargs', hmem', hi', hvx, hvy] at hb2
  refine ⟨pc_add2 t1, pc_add2 t2, ht1, ht2, hi', hmem', ?_⟩
  intro r c
  show t2._display r c = s._display r c
  by_cases hh : sprite_hits (s._cpu.v s._opcode_args.x) (s._cpu.v s._opcode_args.y)
      (fun row => s._memory (s._cpu.i + row))
      (fun row bit => row < s._opcode_args.n ∧ bit < 8) r c
  · have e2 := hb2.flip r c hh
    have e1 := hb1.flip r c hh
    have e2' : t2._display r c = t1._display r c ^^^ 1 := e2
    have e1' : t1._display r c = s._display r c ^^^ 1 := e1
    rw [e2', e1', Nat.xor_assoc, Nat.xor_self, Nat.xor_zero]
  · have e2 := hb2.keep r c hh
    have e1 := hb1.keep r c hh
    have e2' : t2._display r c = t1._display r c := e2
    have e1' : t1._display r c = s._display r c := e1
    rw [e2', e1']

theorem inst_DXYN_twice_restores_witness :
    sprite_demo_lit._opcode_args.n < 16 ∧ sprite_demo_lit._opcode_args.x ≠ 0xF ∧
    sprite_demo_lit._opcode_args.y ≠ 0xF ∧
    ∃ s1 s2, inst_DXYN sprite_demo_lit = .ok s1 ∧ inst_DXYN s1 = .ok s2 ∧
      s1._cpu.i = sprite_demo_lit._cpu.i ∧ s1._memory = sprite_demo_lit._memory ∧
      ∀ r c, s2._display r c = sprite_demo_lit._display r c :=
  ⟨by decide, by decide, by decide,
    inst_DXYN_twice_restores sprite_demo_lit (by decide) (by decide) (by decide)⟩

/-! ## Add to index, shift right, BCD, timers -/

/-- What `inst_FX1E` computes when `x` is not `0xF`: the narrow overflow flag
in `VF` and the wrapped sum in I. -/
theorem inst_FX1E_no_alias (s : Chip8) (hx : s._opcode_args.x ≠ 0xF) :
    ∃ s', inst_FX1E s = .ok s' ∧
      s'._cpu.i = (s._cpu.i + s._cpu.v s._opcode_args.x) % 65536 ∧
      s'._cpu.v 0xF = (if s._cpu.i + s._cpu.v s._opcode_args.x > 0x00FF then 1 else 0) := by
  refine ⟨_, rfl, ?_, ?_⟩
  · simp [pc_add2, setPC, setI, setV, upd, hx]
  · simp [pc_add2, setPC, setI, setV, upd]

/-- C11 (the code on the failing input): for the opcode `0xFF1E` (`x = 0xF`)
with `I = 0x10` and `VF = 5` the flag 0 is stored in `VF` first and then added
to I, so I stays `0x10` where `(I + Vx) mod 65536` is `0x15`. -/
theorem inst_FX1E_adds_new_flag :
    fetch index_demo = 0xFF1E ∧ index_demo._cpu.i = 0x10 ∧ index_demo._cpu.v 0xF = 5 ∧
    (0x10 + 5) % 65536 = 0x15 ∧
    ∃ s', handle_opcode 0 index_demo = .ok s' ∧ s'._cpu.i = 0x10 ∧ s'._cpu.v 0xF = 0 := by
  exact ⟨by decide, rfl, rfl, rfl, ⟨_, rfl, rfl, rfl⟩⟩

/-- C14 (counterexample): the statement for every register index fails at
`x = 0xF`: for the opcode `0x8F06` with `VF = 1` the stored bit is shifted out
again and `VF` ends as 0, not as the bit 1 that `VF` had. -/
theorem inst_8XY6_flag_shifted_out :
    ¬ ∀ s : Chip8, s._opcode_args.x < 16 →
      ∃ s', inst_8XY6 s = .ok s' ∧ s'._cpu.v 0xF = s._cpu.v s._opcode_args.x % 2 := by
  intro hall
  obtain ⟨s', h1, h2⟩ := hall shift_demo (by decide)
  have h3 : inst_8XY6 shift_demo = .ok (pc_add2 (setV (setV shift_demo 0xF
      (shift_demo._cpu.v shift_demo._opcode_args.x &&& 0x1))
      shift_demo._opcode_args.x ((setV shift_demo 0xF
      (shift_demo._cpu.v shift_demo._opcode_args.x &&& 0x1))._cpu.v
      shift_demo._opcode_args.x >>> 1))) := rfl
  rw [h3] at h1
  injection h1 with h1
  subst h1
  revert h2
  decide

/-- C14 (amended): for every register index `x` other than `0xF`, `inst_8XY6`
leaves `VF` equal to the least significant bit that `V[x]` had and `V[x]`
equal to its previous value shifted right by one bit, the floor of its
half. -/
theorem inst_8XY6_no_alias (s : Chip8) (hx : s._opcode_args.x ≠ 0xF) :
    ∃ s', inst_8XY6 s = .ok s' ∧
      s'._cpu.v 0xF = s._cpu.v s._opcode_args.x % 2 ∧
      s'._cpu.v s._opcode_args.x = s._cpu.v s._opcode_args.x / 2 ∧
      s'._cpu.v s._opcode_args.x = s._cpu.v s._opcode_args.x >>> 1 := by
  refine ⟨_, rfl, ?_, ?_, ?_⟩
  · simp [pc_add2, setPC, setV, upd, Ne.symm hx]
  · simp [pc_add2, setPC, setV, upd, hx, Nat.shiftRight_eq_div_pow]
  · simp [pc_add2, setPC, setV, upd, hx]

theorem inst_8XY6_no_alias_witness :
    bcd_demo._opcode_args.x ≠ 0xF ∧
    ∃ s', inst_8XY6 bcd_demo = .ok s' ∧
      s'._cpu.v 0xF = bcd_demo._cpu.v bcd_demo._opcode_args.x % 2 ∧
      s'._cpu.v bcd_demo._opcode_args.x = bcd_demo._cpu.v bcd_demo._opcode_args.x / 2 ∧
      s'._cpu.v bcd_demo._opcode_args.x = bcd_demo._cpu.v bcd_demo._opcode_args.x >>> 1 :=
  ⟨by decide, inst_8XY6_no_alias bcd_demo (by decide)⟩

/-- C12: for `Vx` in `[0,255]` and `I + 2 < 4096`, `inst_FX33` stores digits
`h, t, u` at `I, I+1, I+2` with `h ≤ 2`, `t ≤ 9`, `u ≤ 9` and
`100 h + 10 t + u = Vx`, and leaves every other memory byte, I and all
registers as they were; for `Vx = 157` the bytes are 1, 5, 7. -/
theorem inst_FX33_digits (s : Chip8) (hv : s._cpu.v s._opcode_args.x ≤ 255)
    (_hi : s._cpu.i + 2 < MEMORY_SIZE) :
    ∃ s', inst_FX33 s = .ok s' ∧
      s'._memory s._cpu.i ≤ 2 ∧ s'._memory (s._cpu.i + 1) ≤ 9 ∧
      s'._memory (s._cpu.i + 2) ≤ 9 ∧
      100 * s'._memory s._cpu.i + 10 * s'._memory (s._cpu.i + 1) + s'._memory (s._cpu.i + 2)
        = s._cpu.v s._opcode_args.x ∧
      (∀ a, a ≠ s._cpu.i → a ≠ s._cpu.i + 1 → a ≠ s._cpu.i + 2 →
        s'._memory a = s._memory a) ∧
      s'._cpu.i = s._cpu.i ∧ s'._cpu.v = s._cpu.v ∧
      (s._cpu.v s._opcode_args.x = 157 →
        s'._memory s._cpu.i = 1 ∧ s'._memory (s._cpu.i + 1) = 5 ∧
        s'._memory (s._cpu.i + 2) = 7) := by
  have e0 : ∀ s', inst_FX33 s = .ok s' →
      s'._memory s._cpu.i = (s._cpu.v s._opcode_args.x / 100) % 256 ∧
      s'._memory (s._cpu.i + 1) = (s._cpu.v s._opcode_args.x / 10) % 10 ∧
      s'._memory (s._cpu.i + 2) = s._cpu.v s._opcode_args.x % 10 := by
    intro s' hs'
    simp only [inst_FX33] at hs'
    injection hs' with hs'
    subst hs'
    simp [pc_add2, setPC, upd]
  obtain ⟨a0, a1, a2⟩ := e0 _ rfl
  refine ⟨_, rfl, ?_, ?_, ?_, ?_, ?_, rfl, rfl, ?_⟩
  · rw [a0]; omega
  · rw [a1]; omega
  · rw [a2]; omega
  · rw [a0, a1, a2]; omega
  · intro a h0 h1 h2
    simp [inst_FX33, pc_add2, setPC, upd, h0, h1, h2]
  · intro h157
    rw [a0, a1, a2, h157]
    exact ⟨rfl, rfl, rfl⟩

theorem inst_FX33_digits_witness :
    bcd_demo._cpu.v bcd_demo._opcode_args.x = 157 ∧
    ∃ s', inst_FX33 bcd_demo = .ok s' ∧ s'._memory 0x300 = 1 ∧ s'._memory 0x301 = 5 ∧
      s'._memory 0x302 = 7 := by
  obtain ⟨s', h1, _, _, _, _, _, _, _, h2⟩ :=
    inst_FX33_digits bcd_demo (by decide) (by decide)
  exact ⟨by decide, s', h1, h2 (by decide)⟩

theorem update_timers_delay (s : Chip8) :
    (update_timers s)._timer._delay = s._timer._delay - 1 := by
  unfold update_timers
  by_cases hd : s._timer._delay > 0 <;> by_cases hs : s._timer._sound > 0 <;>
    simp [hd, hs] <;> omega

theorem update_timers_sound (s : Chip8) :
    (update_timers s)._timer._sound = s._timer._sound - 1 := by
  unfold update_timers
  by_cases hd : s._timer._delay > 0 <;> by_cases hs : s._timer._sound > 0 <;>
    simp [hd, hs] <;> omega

theorem update_timers_iterate (k : Nat) (s : Chip8) :
    (update_timers^[k] s)._timer._delay = s._timer._delay - k ∧
    (update_timers^[k] s)._timer._sound = s._timer._sound - k := by
  induction k generalizing s with
  | zero => exact ⟨rfl, rfl⟩
  | succ k ih =>
    rw [Function.iterate_succ_apply]
    obtain ⟨h1, h2⟩ := ih (update_timers s)
    rw [h1, h2, update_timers_delay, update_timers_sound]
    omega

/-- C13: one call of `update_timers` takes each timer `t > 0` to `t - 1` and
leaves a timer at 0 at 0; after `k` calls each timer is `max(0, initial - k)`
(over the integers), which never exceeds its initial value, so no timer wraps
around to 255. -/
theorem update_timers_floor (s : Chip8) :
    ((update_timers s)._timer._delay = if s._timer._delay > 0 then s._timer._delay - 1 else 0) ∧
    ((update_timers s)._timer._sound = if s._timer._sound > 0 then s._timer._sound - 1 else 0) ∧
    ∀ k : Nat,
      (((update_timers^[k] s)._timer._delay : Int) = max 0 ((s._timer._delay : Int) - k)) ∧
      (((update_timers^[k] s)._timer._sound : Int) = max 0 ((s._timer._sound : Int) - k)) ∧
      (update_timers^[k] s)._timer._delay ≤ s._timer._delay ∧
      (update_timers^[k] s)._timer._sound ≤ s._timer._sound := by
  refine ⟨?_, ?_, ?_⟩
  · rw [update_timers_delay]
    split <;> omega
  · rw [update_timers_sound]
    split <;> omega
  · intro k
    obtain ⟨h1, h2⟩ := update_timers_iterate k s
    rw [h1, h2]
    refine ⟨?_, ?_, ?_, ?_⟩ <;> omega

/-! ## Await key, register dump and load, ROM load -/

/-- C15: when no keypad entry `0..15` is pressed (non-zero), `inst_FX0A`
returns the state it was given, PC and `V[x]` included; when some entry is
pressed it stores in `V[x]` the smallest pressed index, advances PC by 2 (on
16 bits) and changes nothing else; on a keypad whose entries are the two key
states, non-zero is `KEY_PRESSED`. -/
theorem inst_FX0A_waits (s : Chip8) :
    ((∀ i, i < KEYPAD_SIZE → s._keypad i = 0) → inst_FX0A s = .ok s) ∧
    ((∃ i, i < KEYPAD_SIZE ∧ s._keypad i ≠ 0) →
      ∃ k, k < KEYPAD_SIZE ∧ s._keypad k ≠ 0 ∧ (∀ j, j < k → s._keypad j = 0) ∧
        inst_FX0A s = .ok (pc_add2 (setV s s._opcode_args.x k)) ∧
        (pc_add2 (setV s s._opcode_args.x k))._cpu.v s._opcode_args.x = k ∧
        (pc_add2 (setV s s._opcode_args.x k))._cpu.pc = (s._cpu.pc + 2) % 65536 ∧
        (s._cpu.pc + 2 < 65536 →
          (pc_add2 (setV s s._opcode_args.x k))._cpu.pc = s._cpu.pc + 2)) ∧
    ((∀ i, s._keypad i = KEY_PRESSED ∨ s._keypad i = KEY_RELEASED) →
      ∀ i, s._keypad i ≠ 0 ↔ s._keypad i = KEY_PRESSED) := by
  refine ⟨?_, ?_, ?_⟩
  · intro hnone
    have hf : (List.range KEYPAD_SIZE).find? (fun i => s._keypad i != 0) = none := by
      rw [List.find?_range_eq_none]
      intro i hi
      simp [hnone i hi]
    simp only [inst_FX0A, hf]
  · rintro ⟨i, hi, hp⟩
    have hne : (List.range KEYPAD_SIZE).find? (fun i => s._keypad i != 0) ≠ none := by
      rw [Ne, List.find?_range_eq_none]
      intro hall
      have := hall i hi
      simp [hp] at this
    obtain ⟨k, hk⟩ := Option.ne_none_iff_exists'.mp hne
    obtain ⟨h1, h2, h3⟩ := List.find?_range_eq_some.mp hk
    refine ⟨k, List.mem_range.mp h2, by simpa using h1, ?_, ?_, ?_, rfl, ?_⟩
    · intro j hj
      simpa using h3 j hj
    · simp only [inst_FX0A, hk]
    · simp [pc_add2, setPC, setV, upd]
    · intro hlt
      show (s._cpu.pc + 2) % 65536 = s._cpu.pc + 2
      omega
  · intro hwf i
    unfold KEY_PRESSED KEY_RELEASED at *
    have := hwf i
    omega

theorem inst_FX0A_waits_witness :
    (∃ i, i < KEYPAD_SIZE ∧ key_demo._keypad i ≠ 0) ∧
    ∃ k, k < KEYPAD_SIZE ∧ key_demo._keypad k ≠ 0 ∧ (∀ j, j < k → key_demo._keypad j = 0) ∧
      inst_FX0A key_demo = .ok (pc_add2 (setV key_demo key_demo._opcode_args.x k)) := by
  have hex : ∃ i, i < KEYPAD_SIZE ∧ key_demo._keypad i ≠ 0 := ⟨7, by decide, by decide⟩
  obtain ⟨k, h1, h2, h3, h4, _⟩ := (inst_FX0A_waits key_demo).2.1 hex
  exact ⟨hex, k, h1, h2, h3, h4⟩

theorem dump_fold (s : Chip8) (k : Nat) :
    (List.range k).foldl
      (fun st i => { st with _memory := upd st._memory (st._cpu.i + i) (st._cpu.v i) }) s =
    { s with _memory := dumped s k } := by
  induction k with
  | zero =>
    have h0 : dumped s 0 = s._memory := by
      funext a
      unfold dumped
      rw [if_neg (by omega)]
    rw [h0]
    rfl
  | succ k ih =>
    rw [List.range_succ, List.foldl_append, ih]
    have hk : upd (dumped s k) (s._cpu.i + k) (s._cpu.v k) = dumped s (k + 1) := by
      funext a
      unfold upd dumped
      by_cases h : a = s._cpu.i + k
      · subst h
        simp
      · rw [if_neg h]
        by_cases h2 : s._cpu.i ≤ a ∧ a < s._cpu.i + k
        · rw [if_pos h2, if_pos (by omega)]
        · rw [if_neg h2, if_neg (by omega)]
    show ({ s with _memory := upd (dumped s k) (s._cpu.i + k) (s._cpu.v k) } : Chip8) = _
    rw [hk]

theorem load_fold (s : Chip8) (k : Nat) :
    (List.range k).foldl (fun st i => setV st i (st._memory (st._cpu.i + i))) s =
    { s with _cpu := { s._cpu with v := loaded s k } } := by
  induction k with
  | zero =>
    have h0 : loaded s 0 = s._cpu.v := by
      funext j
      unfold loaded
      rw [if_neg (by omega)]
    rw [h0]
    rfl
  | succ k ih =>
    rw [List.range_succ, List.foldl_append, ih]
    have hk : upd (loaded s k) k (s._memory (s._cpu.i + k)) = loaded s (k + 1) := by
      funext j
      unfold upd loaded
      by_cases h : j = k
      · subst h
        simp
      · rw [if_neg h]
        by_cases h2 : j < k
        · rw [if_pos h2, if_pos (by omega)]
        · rw [if_neg h2, if_neg (by omega)]
    show ({ s with _cpu := { s._cpu with
      v := upd (loaded s k) k (s._memory (s._cpu.i + k)) } } : Chip8) = _
    rw [hk]

/-- C16: for a register index `x` with `I + x < 4096`, `inst_FX55` sets
`memory[I + i] = V[i]` for every `i` in `0..x` and leaves I, the registers and
every other memory byte as they were; `inst_FX65` run on the result leaves all
registers and I equal to their values before the dump. -/
theorem dump_then_load (s : Chip8) (_hx : s._opcode_args.x < 16)
    (_hi : s._cpu.i + s._opcode_args.x < MEMORY_SIZE) :
    ∃ s1 s2, inst_FX55 s = .ok s1 ∧ inst_FX65 s1 = .ok s2 ∧
      (∀ i, i ≤ s._opcode_args.x → s1._memory (s._cpu.i + i) = s._cpu.v i) ∧
      (∀ a, a < s._cpu.i ∨ s._cpu.i + s._opcode_args.x < a → s1._memory a = s._memory a) ∧
      s1._cpu.i = s._cpu.i ∧ s1._cpu.v = s._cpu.v ∧
      s2._cpu.v = s._cpu.v ∧ s2._cpu.i = s._cpu.i := by
  have h55 : inst_FX55 s =
      .ok (pc_add2 { s with _memory := dumped s (s._opcode_args.x + 1) }) := by
    simp only [inst_FX55, dump_fold]
  have h65 : ∀ t : Chip8, inst_FX65 t =
      .ok (pc_add2 { t with _cpu := { t._cpu with v := loaded t (t._opcode_args.x + 1) } }) := by
    intro t
    simp only [inst_FX65, load_fold]
  have hmem : ∀ i, i ≤ s._opcode_args.x →
      dumped s (s._opcode_args.x + 1) (s._cpu.i + i) = s._cpu.v i := by
    intro i hi
    unfold dumped
    rw [if_pos (by omega), Nat.add_sub_cancel_left]
  refine ⟨_, _, h55, h65 _, hmem, ?_, rfl, rfl, ?_, rfl⟩
  · intro a ha
    show dumped s (s._opcode_args.x + 1) a = s._memory a
    unfold dumped
    rw [if_neg (by omega)]
  · funext j
    show (if j < s._opcode_args.x + 1
      then dumped s (s._opcode_args.x + 1) (s._cpu.i + j) else s._cpu.v j) = s._cpu.v j
    by_cases hj : j < s._opcode_args.x + 1
    · rw [if_pos hj]
      exact hmem j (by omega)
    · rw [if_neg hj]

theorem dump_then_load_witness :
    bcd_demo._opcode_args.x < 16 ∧ bcd_demo._cpu.i + bcd_demo._opcode_args.x < MEMORY_SIZE ∧
    ∃ s1 s2, inst_FX55 bcd_demo = .ok s1 ∧ inst_FX65 s1 = .ok s2 ∧
      (∀ i, i ≤ bcd_demo._opcode_args.x → s1._memory (bcd_demo._cpu.i + i) = bcd_demo._cpu.v i) ∧
      (∀ a, a < bcd_demo._cpu.i ∨ bcd_demo._cpu.i + bcd_demo._opcode_args.x < a →
        s1._memory a = bcd_demo._memory a) ∧
      s1._cpu.i = bcd_demo._cpu.i ∧ s1._cpu.v = bcd_demo._cpu.v ∧
      s2._cpu.v = bcd_demo._cpu.v ∧ s2._cpu.i = bcd_demo._cpu.i :=
  ⟨by decide, by decide, dump_then_load bcd_demo (by decide) (by decide)⟩

theorem read_into_apply (bytes : List Nat) :
    ∀ (mem : Nat → Nat) (addr a : Nat),
      read_into mem addr bytes a =
        if addr ≤ a ∧ a < addr + bytes.length then bytes.getD (a - addr) 0 else mem a := by
  induction bytes with
  | nil =>
    intro mem addr a
    rw [if_neg (by simp)]
    rfl
  | cons b rest ih =>
    intro mem addr a
    show read_into (upd mem addr b) (addr + 1) rest a = _
    rw [ih]
    simp only [List.length_cons]
    by_cases h0 : a = addr
    · subst h0
      rw [if_neg (by omega), if_pos (by omega)]
      simp [upd]
    · by_cases h1 : addr + 1 ≤ a ∧ a < addr + 1 + rest.length
      · rw [if_pos h1, if_pos (by omega)]
        have hsub : a - addr = (a - (addr + 1)) + 1 := by omega
        rw [hsub, List.getD_cons_succ]
      · rw [if_neg h1, if_neg (by omega)]
        simp [upd, h0]

/-- C17: for a ROM that can be read, of length `L`, `load_game` throws the
too-big error if and only if `L > 4096 - 0x200 = 3584`, with the state
untouched; otherwise it returns normally with `memory[0x200 + i]` equal to the
`i`-th ROM byte for every `i < L` and every byte below `0x200` (the font area)
as it was. -/
theorem load_game_fits (rom : List Nat) (s : Chip8) :
    MEMORY_SIZE - PROGRAM_START_ADDRESS = 3584 ∧
    ((∃ st, load_game (some rom) s = .error (Fault.rom_too_big, st)) ↔ rom.length > 3584) ∧
    (rom.length > 3584 → load_game (some rom) s = .error (Fault.rom_too_big, s)) ∧
    (rom.length ≤ 3584 →
      ∃ s', load_game (some rom) s = .ok s' ∧
        (∀ i (h : i < rom.length), s'._memory (0x200 + i) = rom[i]) ∧
        (∀ a, a < 0x200 → s'._memory a = s._memory a)) := by
  have hbig : rom.length > 3584 → load_game (some rom) s = .error (Fault.rom_too_big, s) := by
    intro h
    have h' : rom.length > MEMORY_SIZE - PROGRAM_START_ADDRESS := h
    simp only [load_game, if_pos h']
  have hfit : rom.length ≤ 3584 →
      load_game (some rom) s =
        .ok { s with _memory := read_into s._memory PROGRAM_START_ADDRESS rom } := by
    intro h
    have h' : ¬ rom.length > MEMORY_SIZE - PROGRAM_START_ADDRESS := by
      show ¬ rom.length > 3584
      omega
    have ht : rom.take MEMORY_SIZE = rom :=
      List.take_of_length_le (by show rom.length ≤ 4096; omega)
    simp only [load_game, if_neg h', ht]
  refine ⟨rfl, ⟨?_, fun h => ⟨s, hbig h⟩⟩, hbig, ?_⟩
  · rintro ⟨st, hst⟩
    by_contra hle
    rw [hfit (by omega)] at hst
    cases hst
  · intro hle
    refine ⟨_, hfit hle, ?_, ?_⟩
    · intro i hi
      show read_into s._memory PROGRAM_START_ADDRESS rom (0x200 + i) = rom[i]
      rw [read_into_apply]
      unfold PROGRAM_START_ADDRESS
      rw [if_pos (by omega), Nat.add_sub_cancel_left, List.getD_eq_getElem rom 0 hi]
    · intro a ha
      show read_into s._memory PROGRAM_START_ADDRESS rom a = s._memory a
      rw [read_into_apply]
      unfold PROGRAM_START_ADDRESS
      rw [if_neg (by omega)]

theorem load_game_fits_witness :
    [0x12, 0x00].length ≤ 3584 ∧
    ∃ s', load_game (some [0x12, 0x00]) blank = .ok s' ∧
      (∀ i (h : i < [0x12, 0x00].length), s'._memory (0x200 + i) = [0x12, 0x00][i]) ∧
      (∀ a, a < 0x200 → s'._memory a = blank._memory a) :=
  ⟨by decide, (load_game_fits [0x12, 0x00] blank).2.2.2 (by decide)⟩

/-! ## Matching patterns -/

theorem init_opcode_table_pairwise :
    init_opcode_table.Pairwise (fun a b => a.1 < b.1) := by
  decide

/-- C18 (counterexample): the opcode `0x1234` has the shape of `1NNN`, and the
matching rule accepts both the pattern `0x1FFF` and the pattern `0x3FFF` of
the table, so it is not the case that exactly one registered pattern matches
every shaped opcode. -/
theorem entry_matches_not_unique :
    ¬ ∀ op : Nat, op < 65536 → ∀ h : Handler, has_shape h op = true →
      ∃! entry, entry ∈ init_opcode_table ∧ entry_matches op entry = true := by
  intro hall
  obtain ⟨e, _, huniq⟩ := hall 0x1234 (by decide) .inst_1NNN (by decide)
  have h1 := huniq (0x1FFF, .inst_1NNN) ⟨by decide, by decide⟩
  have h2 := huniq (0x3FFF, .inst_3XNN) ⟨by decide, by decide⟩
  rw [← h2] at h1
  revert h1
  decide

/-- C18 (amended): for every 16-bit opcode with the shape of a listed
instruction, the pattern registered for that instruction satisfies the
matching rule and is the lowest registered pattern that does, which is the
entry the ascending scan of `handle_opcode` stops at. -/
theorem entry_matches_lowest (op : Nat) (h : Handler) (hop : op < 65536)
    (hs : has_shape h op = true) :
    ∃ P, (P, h) ∈ init_opcode_table ∧ entry_matches op (P, h) = true ∧
      find_entry op = some (P, h) ∧
      ∀ entry ∈ init_opcode_table, entry_matches op entry = true → P ≤ entry.1 := by
  obtain ⟨P, hP⟩ := find_entry_of_shape hop hs
  refine ⟨P, List.mem_of_find?_eq_some hP, List.find?_some hP, hP, ?_⟩
  intro entry he hm
  obtain ⟨_, as, bs, hsplit, hbefore⟩ := List.find?_eq_some.mp hP
  have hpw := init_opcode_table_pairwise
  rw [hsplit] at hpw he
  rcases List.mem_append.mp he with h1 | h1
  · have := hbefore entry h1
    simp [hm] at this
  · rcases List.mem_cons.mp h1 with h2 | h2
    · rw [h2]
    · have h3 := (List.pairwise_cons.mp (List.pairwise_append.mp hpw).2.1).1 entry h2
      exact Nat.le_of_lt h3

theorem entry_matches_lowest_witness :
    (0x1234 : Nat) < 65536 ∧ has_shape .inst_1NNN 0x1234 = true ∧
    ∃ P, (P, Handler.inst_1NNN) ∈ init_opcode_table ∧
      entry_matches 0x1234 (P, Handler.inst_1NNN) = true ∧
      find_entry 0x1234 = some (P, Handler.inst_1NNN) ∧
      ∀ entry ∈ init_opcode_table, entry_matches 0x1234 entry = true → P ≤ entry.1 :=
  ⟨by decide, by decide, entry_matches_lowest 0x1234 .inst_1NNN (by decide) (by decide)⟩

/-! ## Program counter and stack pointer -/

theorem foldl_keeps {α β : Type} (proj : Chip8 → β) (f : Chip8 → α → Chip8)
    (hf : ∀ st x, proj (f st x) = proj st) (l : List α) :
    ∀ s : Chip8, proj (l.foldl f s) = proj s := by
  induction l with
  | nil => intro s; rfl
  | cons x rest ih =>
    intro s
    rw [List.foldl_cons, ih, hf]

theorem draw_px_ctl (cx cy px row bit : Nat) (t : Chip8) :
    ((draw_px cx cy px row bit t)._cpu.pc, (draw_px cx cy px row bit t)._cpu.sp) =
      (t._cpu.pc, t._cpu.sp) := by
  obtain ⟨_, _, _, _, _, hpc, _, hsp, _⟩ := draw_px_frame cx cy px row bit t
  rw [hpc, hsp]

theorem draw_row_ctl (cx cy row : Nat) (t : Chip8) :
    ((draw_row cx cy row t)._cpu.pc, (draw_row cx cy row t)._cpu.sp) =
      (t._cpu.pc, t._cpu.sp) := by
  unfold draw_row
  exact foldl_keeps (fun u => (u._cpu.pc, u._cpu.sp)) _
    (fun st bit => draw_px_ctl cx cy _ row bit st) _ t

theorem draw_rows_ctl (cx cy n : Nat) (t : Chip8) :
    (((List.range n).foldl (fun st row => draw_row cx cy row st) t)._cpu.pc,
      ((List.range n).foldl (fun st row => draw_row cx cy row st) t)._cpu.sp) =
      (t._cpu.pc, t._cpu.sp) :=
  foldl_keeps (fun u => (u._cpu.pc, u._cpu.sp)) _ (fun st row => draw_row_ctl cx cy row st) _ t

/-- The state `inst_DXYN` returns has PC advanced by 2 and SP as before. -/
theorem inst_DXYN_ctl (s : Chip8) :
    ∃ s', inst_DXYN s = .ok s' ∧ s'._cpu.pc = (s._cpu.pc + 2) % 65536 ∧
      s'._cpu.sp = s._cpu.sp := by
  have h := draw_rows_ctl (s._cpu.v s._opcode_args.x) (s._cpu.v s._opcode_args.y)
    s._opcode_args.n (setV s 0xF 0)
  have hpc := congrArg Prod.fst h
  have hsp := congrArg Prod.snd h
  simp only at hpc hsp
  refine ⟨_, rfl, ?_, ?_⟩
  · show (_ + 2) % 65536 = _
    rw [hpc]
    rfl
  · show _ = s._cpu.sp
    rw [show (pc_add2 _)._cpu.sp = _ from rfl] at *
    exact hsp

/-- The state `inst_FX55` returns has PC advanced by 2 and SP as before. -/
theorem inst_FX55_ctl (s : Chip8) :
    ∃ s', inst_FX55 s = .ok s' ∧ s'._cpu.pc = (s._cpu.pc + 2) % 65536 ∧
      s'._cpu.sp = s._cpu.sp := by
  refine ⟨pc_add2 { s with _memory := dumped s (s._opcode_args.x + 1) }, ?_, rfl, rfl⟩
  simp only [inst_FX55, dump_fold]

/-- The state `inst_FX65` returns has PC advanced by 2 and SP as before. -/
theorem inst_FX65_ctl (s : Chip8) :
    ∃ s', inst_FX65 s = .ok s' ∧ s'._cpu.pc = (s._cpu.pc + 2) % 65536 ∧
      s'._cpu.sp = s._cpu.sp := by
  refine ⟨pc_add2 { s with _cpu := { s._cpu with v := loaded s (s._opcode_args.x + 1) } },
    ?_, rfl, rfl⟩
  simp only [inst_FX65, load_fold]

/-- The state `inst_FX0A` returns has SP as before. -/
theorem inst_FX0A_sp (s s' : Chip8) (h : inst_FX0A s = .ok s') : s'._cpu.sp = s._cpu.sp := by
  unfold inst_FX0A at h
  split at h
  · injection h with h
    rw [← h]
    rfl
  · injection h with h
    rw [← h]

/-- Every handler but `inst_2NNN` and `inst_00EE` returns normally with SP as
before. -/
theorem Handler.call_keeps_sp (h : Handler) (rnd : Nat) (s s' : Chip8)
    (h1 : h ≠ .inst_2NNN) (h2 : h ≠ .inst_00EE) (hc : h.call rnd s = .ok s') :
    s'._cpu.sp = s._cpu.sp := by
  cases h
  case inst_2NNN => exact absurd rfl h1
  case inst_00EE => exact absurd rfl h2
  case inst_FX0A => exact inst_FX0A_sp s s' hc
  case inst_DXYN =>
    obtain ⟨t, ht, _, hsp⟩ := inst_DXYN_ctl s
    have : Chip8.inst_DXYN s = .ok s' := hc
    rw [ht] at this
    injection this with this
    rw [← this, hsp]
  case inst_FX55 =>
    obtain ⟨t, ht, _, hsp⟩ := inst_FX55_ctl s
    have : Chip8.inst_FX55 s = .ok s' := hc
    rw [ht] at this
    injection this with this
    rw [← this, hsp]
  case inst_FX65 =>
    obtain ⟨t, ht, _, hsp⟩ := inst_FX65_ctl s
    have : Chip8.inst_FX65 s = .ok s' := hc
    rw [ht] at this
    injection this with this
    rw [← this, hsp]
  all_goals
    simp only [Handler.call, Chip8.inst_00E0, Chip8.inst_1NNN, Chip8.inst_3XNN, Chip8.inst_4XNN,
      Chip8.inst_5XY0, Chip8.inst_6XNN, Chip8.inst_7XNN, Chip8.inst_8XY0, Chip8.inst_8XY1,
      Chip8.inst_8XY2, Chip8.inst_8XY3, Chip8.inst_8XY4, Chip8.inst_8XY5, Chip8.inst_8XY6,
      Chip8.inst_8XY7, Chip8.inst_8XYE, Chip8.inst_9XY0, Chip8.inst_ANNN, Chip8.inst_BNNN,
      Chip8.inst_CXNN, Chip8.inst_EX9E, Chip8.inst_EXA1, Chip8.inst_FX07, Chip8.inst_FX15,
      Chip8.inst_FX18, Chip8.inst_FX1E, Chip8.inst_FX29, Chip8.inst_FX33] at hc
    injection hc with hc
    rw [← hc]
    first
      | rfl
      | (split <;> rfl)

theorem handle_opcode_ok_call (rnd : Nat) (s s' : Chip8) (h : handle_opcode rnd s = .ok s') :
    ∃ hd : Handler, hd.call rnd (init_opcode_args { s with _opcode := fetch s }) = .ok s' := by
  cases hf : find_entry (fetch s) with
  | none =>
    simp only [handle_opcode, hf] at h
    cases h
  | some inst =>
    simp only [handle_opcode, hf] at h
    exact ⟨_, h⟩

theorem inst_2NNN_ok_sp (t t' : Chip8) (h : inst_2NNN t = .ok t') :
    t._cpu.sp < 15 ∧ t'._cpu.sp = t._cpu.sp + 1 := by
  by_cases hsp : t._cpu.sp < 15
  · rw [inst_2NNN_ok t hsp] at h
    injection h with h
    rw [← h]
    exact ⟨hsp, rfl⟩
  · rw [inst_2NNN_overflow t (by omega)] at h
    cases h

theorem inst_00EE_ok_sp (t t' : Chip8) (h : inst_00EE t = .ok t') :
    0 < t._cpu.sp ∧ t'._cpu.sp = t._cpu.sp - 1 := by
  by_cases hsp : 0 < t._cpu.sp
  · rw [inst_00EE_ok t hsp] at h
    injection h with h
    rw [← h]
    exact ⟨hsp, rfl⟩
  · have hz : ¬ t._cpu.sp > 0 := hsp
    simp only [inst_00EE, if_neg hz] at h
    cases h

theorem update_timers_cpu (s : Chip8) : (update_timers s)._cpu = s._cpu := by
  unfold update_timers
  by_cases hd : s._timer._delay > 0 <;> by_cases hs : s._timer._sound > 0 <;> simp [hd, hs]

/-- The stack pointer of a reachable state is at most 15: a `Call` succeeds
only below 15. -/
theorem Reachable.sp_le {s : Chip8} (hr : Reachable s) : s._cpu.sp ≤ 15 := by
  induction hr with
  | start s h => omega
  | key s idx state _ ih => exact ih
  | exec s s' rnd _ h ih =>
    obtain ⟨hd, hcall⟩ := handle_opcode_ok_call rnd s s' h
    have hsame : (init_opcode_args { s with _opcode := fetch s })._cpu.sp = s._cpu.sp := rfl
    by_cases h1 : hd = .inst_2NNN
    · subst h1
      obtain ⟨a, b⟩ := inst_2NNN_ok_sp _ _ hcall
      omega
    · by_cases h2 : hd = .inst_00EE
      · subst h2
        obtain ⟨a, b⟩ := inst_00EE_ok_sp _ _ hcall
        omega
      · have := Handler.call_keeps_sp hd rnd _ s' h1 h2 hcall
        omega
  | tick s _ ih =>
    rw [update_timers_cpu]
    exact ih

/-- C19: in every state reachable from a state with `SP = 0` by instruction
executions that raise no fault (with key events and timer ticks in between),
`SP ≤ 16` (indeed `SP ≤ 15`); a `Call` entered with that SP stores at the
index `SP`, which is inside the 16-entry stack, and leaves `SP + 1`; a
`Return` entered with that SP has `SP > 0`, reads at the index `SP - 1`, which
is inside the stack, and leaves `SP - 1`; every other handler leaves SP as it
was. -/
theorem reachable_stack_bounds (s : Chip8) (hr : Reachable s) :
    s._cpu.sp ≤ 16 ∧ s._cpu.sp ≤ 15 ∧
    (∀ t t' : Chip8, t._cpu.sp = s._cpu.sp → inst_2NNN t = .ok t' →
      t._cpu.sp < STACK_SIZE ∧ t'._cpu.sp = t._cpu.sp + 1) ∧
    (∀ t t' : Chip8, t._cpu.sp = s._cpu.sp → inst_00EE t = .ok t' →
      0 < t._cpu.sp ∧ t._cpu.sp - 1 < STACK_SIZE ∧ t'._cpu.sp = t._cpu.sp - 1) ∧
    (∀ (h : Handler) (rnd : Nat) (t t' : Chip8), h ≠ .inst_2NNN → h ≠ .inst_00EE →
      h.call rnd t = .ok t' → t'._cpu.sp = t._cpu.sp) := by
  have hle := Reachable.sp_le hr
  refine ⟨by omega, hle, ?_, ?_, ?_⟩
  · intro t t' _ hc
    obtain ⟨a, b⟩ := inst_2NNN_ok_sp t t' hc
    exact ⟨by show t._cpu.sp < 16; omega, b⟩
  · intro t t' hsp hc
    obtain ⟨a, b⟩ := inst_00EE_ok_sp t t' hc
    exact ⟨a, by show t._cpu.sp - 1 < 16; omega, b⟩
  · intro h rnd t t' h1 h2 hc
    exact Handler.call_keeps_sp h rnd t t' h1 h2 hc

theorem reachable_stack_bounds_witness :
    ∃ s', handle_opcode 0 (with_word blank 0x23 0x00) = .ok s' ∧ Reachable s' ∧
      s'._cpu.sp = 1 ∧ s'._cpu.sp ≤ 16 :=
  ⟨_, rfl, Reachable.exec _ _ 0 (Reachable.start (with_word blank 0x23 0x00) rfl) rfl, rfl,
    (reachable_stack_bounds _
      (Reachable.exec _ _ 0 (Reachable.start (with_word blank 0x23 0x00) rfl) rfl)).1⟩

/-- C20: every handler other than `1NNN`, `2NNN`, `BNNN`, `00EE`, `FX0A` and
the six skips returns with PC equal to the old PC plus 2 on 16 bits; each of
the six skips returns with PC plus 4 exactly when its condition holds and PC
plus 2 otherwise; `1NNN` and a `2NNN` that returns normally leave `PC = nnn`,
and `BNNN` leaves `PC = V0 + nnn`, none of them adding 2. -/
theorem pc_after_handler (rnd : Nat) (s : Chip8) :
    (∀ h : Handler,
      h ∉ [Handler.inst_1NNN, .inst_2NNN, .inst_BNNN, .inst_00EE, .inst_FX0A, .inst_3XNN,
        .inst_4XNN, .inst_5XY0, .inst_9XY0, .inst_EX9E, .inst_EXA1] →
      ∃ s', h.call rnd s = .ok s' ∧ s'._cpu.pc = (s._cpu.pc + 2) % 65536) ∧
    (∃ s', inst_3XNN s = .ok s' ∧ s'._cpu.pc =
      if s._cpu.v s._opcode_args.x = s._opcode_args.nn
      then (s._cpu.pc + 4) % 65536 else (s._cpu.pc + 2) % 65536) ∧
    (∃ s', inst_4XNN s = .ok s' ∧ s'._cpu.pc =
      if s._cpu.v s._opcode_args.x ≠ s._opcode_args.nn
      then (s._cpu.pc + 4) % 65536 else (s._cpu.pc + 2) % 65536) ∧
    (∃ s', inst_5XY0 s = .ok s' ∧ s'._cpu.pc =
      if s._cpu.v s._opcode_args.x = s._cpu.v s._opcode_args.y
      then (s._cpu.pc + 4) % 65536 else (s._cpu.pc + 2) % 65536) ∧
    (∃ s', inst_9XY0 s = .ok s' ∧ s'._cpu.pc =
      if s._cpu.v s._opcode_args.x ≠ s._cpu.v s._opcode_args.y
      then (s._cpu.pc + 4) % 65536 else (s._cpu.pc + 2) % 65536) ∧
    (∃ s', inst_EX9E s = .ok s' ∧ s'._cpu.pc =
      if s._keypad (s._cpu.v s._opcode_args.x) = KEY_PRESSED
      then (s._cpu.pc + 4) % 65536 else (s._cpu.pc + 2) % 65536) ∧
    (∃ s', inst_EXA1 s = .ok s' ∧ s'._cpu.pc =
      if s._keypad (s._cpu.v s._opcode_args.x) = KEY_RELEASED
      then (s._cpu.pc + 4) % 65536 else (s._cpu.pc + 2) % 65536) ∧
    (∃ s', inst_1NNN s = .ok s' ∧ s'._cpu.pc = s._opcode_args.nnn) ∧
    (∀ s', inst_2NNN s = .ok s' → s'._cpu.pc = s._opcode_args.nnn) ∧
    (s._cpu.sp < STACK_SIZE - 1 → ∃ s', inst_2NNN s = .ok s') ∧
    (∃ s', inst_BNNN s = .ok s' ∧ s'._cpu.pc = (s._cpu.v 0 + s._opcode_args.nnn) % 65536 ∧
      (s._cpu.v 0 < 256 → s._opcode_args.nnn < 4096 →
        s'._cpu.pc = s._cpu.v 0 + s._opcode_args.nnn)) := by
  have hskip : ∀ c : Prop, ∀ [Decidable c],
      (pc_add2 (if c then pc_add2 s else s))._cpu.pc =
        if c then (s._cpu.pc + 4) % 65536 else (s._cpu.pc + 2) % 65536 := by
    intro c _
    by_cases hc : c
    · rw [if_pos hc, if_pos hc]
      show ((s._cpu.pc + 2) % 65536 + 2) % 65536 = (s._cpu.pc + 4) % 65536
      omega
    · rw [if_neg hc, if_neg hc]
      rfl
  refine ⟨?_, ⟨_, rfl, hskip _⟩, ⟨_, rfl, hskip _⟩, ⟨_, rfl, hskip _⟩, ⟨_, rfl, hskip _⟩,
    ⟨_, rfl, hskip _⟩, ⟨_, rfl, hskip _⟩, ⟨_, rfl, rfl⟩, ?_, ?_, ⟨_, rfl, rfl, ?_⟩⟩
  · intro h hmem
    cases h
    case inst_DXYN =>
      obtain ⟨t, ht, hpc, _⟩ := inst_DXYN_ctl s
      exact ⟨t, ht, hpc⟩
    case inst_FX55 =>
      obtain ⟨t, ht, hpc, _⟩ := inst_FX55_ctl s
      exact ⟨t, ht, hpc⟩
    case inst_FX65 =>
      obtain ⟨t, ht, hpc, _⟩ := inst_FX65_ctl s
      exact ⟨t, ht, hpc⟩
    all_goals
      first
        | exact ⟨_, rfl, rfl⟩
        | exact absurd (by decide) hmem
  · intro s' hc
    by_cases hsp : s._cpu.sp < 15
    · rw [inst_2NNN_ok s hsp] at hc
      injection hc with hc
      rw [← hc]
      rfl
    · rw [inst_2NNN_overflow s (by omega)] at hc
      cases hc
  · intro hsp
    exact ⟨_, inst_2NNN_ok s hsp⟩
  · intro h0 hn
    show (s._cpu.v 0 + s._opcode_args.nnn) % 65536 = s._cpu.v 0 + s._opcode_args.nnn
    omega

theorem pc_after_handler_witness :
    Handler.inst_6XNN ∉ [Handler.inst_1NNN, .inst_2NNN, .inst_BNNN, .inst_00EE, .inst_FX0A,
      .inst_3XNN, .inst_4XNN, .inst_5XY0, .inst_9XY0, .inst_EX9E, .inst_EXA1] ∧
    ∃ s', Handler.inst_6XNN.call 0 bcd_demo = .ok s' ∧
      s'._cpu.pc = (bcd_demo._cpu.pc + 2) % 65536 :=
  ⟨by decide, (pc_after_handler 0 bcd_demo).1 .inst_6XNN (by decide)⟩

end Chip8
